import Mathlib

/-!
Verification of the spectral-model and line-list management layer of the
SMH GUI (`smh/gui`): transition deletion, hash-index maintenance, conflict
recomputation, batch fitting, batched abundance measurement, mask handling,
fit-parameter bounds, and model export.

Each definition is a shallow embedding of the correspondingly named Python
function; machine floats whose only role is to carry finite values or NaN
are embedded as `Option Rat` (`none` encodes a non-finite value), and an
uncaught Python exception is embedded as an `Option`-valued operation
returning `none`.
-/

namespace Smh

/-- One row of the session line list (`session.metadata["line_list"]`),
restricted to the columns the verified operations read: the content `hash`
identifying a transition, its `wavelength`, and the optional
`equivalent_width` column carried by pre-measured line lists. -/
structure Transition where
  hash : String
  wavelength : Rat
  equivalent_width : Option Rat := none
deriving DecidableEq, Repr

/-- A spectral model as seen by `linelist_manager.py`: the list of owned
transition hashes (`_transition_hashes`). -/
structure SModel where
  transition_hashes : List String
deriving DecidableEq, Repr

/-- Two models conflict directly when they share at least one transition
hash. -/
def sharesHash (a b : SModel) : Bool :=
  a.transition_hashes.any (fun h => b.transition_hashes.contains h)

/-- Direct conflict between the models at indices `i` and `j` of the model
list (false when either index is out of range). -/
def sharesHashIdx (models : List SModel) (i j : Nat) : Bool :=
  match models[i]?, models[j]? with
  | some a, some b => sharesHash a b
  | _, _ => false

/-- One closure step of the conflict graph: add every model index directly
conflicting with the current component. -/
def growComponent (models : List SModel) (comp : List Nat) : List Nat :=
  (List.range models.length).filter (fun j =>
    comp.contains j || comp.any (fun i => sharesHashIdx models i j))

/-- The connected component of model index `i` in the conflict graph,
as an ascending list of indices (iterating the closure step once per model
reaches the full component). -/
def componentOf (models : List SModel) (i : Nat) : List Nat :=
  (growComponent models)^[models.length] [i]

/-- Modelled from the spec: `smh.utils.spectral_model_conflicts`, whose
implementation is outside `src/`, described in the spec as
`ConflictDetector.compute(models, store)` — connected components of the
share-a-hash graph over model indices, components of size at least 2 only,
each component in ascending index order, components ordered by smallest
member.  The described result never consults the line list (`store`); the
argument is kept to mirror the call sites. -/
def spectral_model_conflicts (models : List SModel)
    (_line_list : List Transition) : List (List Nat) :=
  (((List.range models.length).map (componentOf models)).filter
    (fun c => 2 ≤ c.length)).dedup

/-- Lexicographic comparison of character sequences by code point, the
byte order `np.argsort` applies to a string column. -/
def strLtAux : List Char → List Char → Bool
  | [], [] => false
  | [], _ :: _ => true
  | _ :: _, [] => false
  | a :: as, b :: bs =>
      a.toNat < b.toNat || (a.toNat = b.toNat && strLtAux as bs)

/-- Lexicographic strict order on strings (by code point). -/
def hashLt (a b : String) : Bool := strLtAux a.data b.data

/-- Insert `a` into a sorted list, in front of the first element it is
`le`-related to (stable insertion). -/
def insertBy (le : α → α → Bool) (a : α) : List α → List α
  | [] => [a]
  | b :: bs => if le a b then a :: b :: bs else b :: insertBy le a bs

/-- Stable insertion sort (a kernel-reducible stand-in for the library
sorts used by numpy and astropy). -/
def sortBy (le : α → α → Bool) : List α → List α
  | [] => []
  | a :: as => insertBy le a (sortBy le as)

/-- The hash-to-position index `np.argsort(line_list["hash"])`: the row
positions ordered by hash.  (Hashes are unique within a line list, so the
tie-breaking order of the underlying sort is irrelevant; ties are broken by
position here.) -/
def argsortHashes (hashes : List String) : List Nat :=
  (sortBy (fun a b => hashLt a.2 b.2 || (a.2 = b.2 && a.1 ≤ b.1)) hashes.enum).map (·.1)

/-- The slice of a `Session` that `linelist_manager.py` reads and writes:
`metadata["line_list"]` (`none` when the key is absent), the auxiliary
`metadata["line_list_argsort_hashes"]` index, `metadata["spectral_models"]`
and the `_spectral_model_conflicts` attribute. -/
structure GuiSession where
  line_list : Option (List Transition)
  argsort_hashes : Option (List Nat)
  spectral_models : List SModel
  conflicts : List (List Nat)
deriving DecidableEq, Repr

/-- `all_hashes_used` of `LineListTableView.delete_selected_rows`: every
hash referenced by any spectral model (`list(set(...))`; only membership is
used, so duplicates are dropped). -/
def usedHashes (models : List SModel) : List String :=
  ((models.map (·.transition_hashes)).flatten).dedup

/-- One iteration of the selected-rows loop of
`LineListTableView.delete_selected_rows`: read the hash of the selected row
(an out-of-range row would raise `IndexError`, embedded as `none`) and mark
the row for deletion unless its hash is used by a spectral model. -/
def deleteRowStep (ll : List Transition) (used : List String)
    (mask : List Bool) (r : Nat) : Option (List Bool) :=
  (ll[r]?).map (fun t => if used.contains t.hash then mask else mask.set r false)

/-- Boolean-mask row selection `line_list[mask]`: keep the rows whose mask
entry is `true`. -/
def applyMask (ll : List Transition) (mask : List Bool) : List Transition :=
  ((ll.zip mask).filter (·.2)).map (·.1)

/-- `LineListTableView.delete_selected_rows` (linelist_manager.py:365-407).
Selected transitions whose hash is referenced by a spectral model are
skipped (the GUI shows a warning counting them); the remaining selected
rows are removed and `line_list_argsort_hashes` is recomputed.  The
returned flag records whether the operation recomputed
`session._spectral_model_conflicts` — this function never does.  `none`
embeds an uncaught exception (missing line list or out-of-range row). -/
def lineListDeleteSelectedRows (s : GuiSession) (sel : List Nat) :
    Option (GuiSession × Bool) :=
  match s.line_list with
  | none => none
  | some ll =>
    match sel.foldlM (deleteRowStep ll (usedHashes s.spectral_models))
        (List.replicate ll.length true) with
    | none => none
    | some mask =>
      if mask.all (fun b => b) then some (s, false)
      else
        let llN := applyMask ll mask
        some ({ s with
                line_list := some llN,
                argsort_hashes := some (argsortHashes (llN.map (·.hash))) }, false)

/-- `LineListTableView.add_selected_rows_as_profile_models`
(linelist_manager.py:291-312): one single-hash `ProfileFittingModel` per
selected row is appended to the session model list, then
`_spectral_model_conflicts` is recomputed (flag `true`). -/
def addSelectedRowsAsProfileModels (s : GuiSession) (sel : List Nat) :
    Option (GuiSession × Bool) :=
  match s.line_list with
  | none => none
  | some ll =>
    match sel.mapM (fun r => (ll[r]?).map (fun t => SModel.mk [t.hash])) with
    | none => none
    | some newModels =>
      let modelsN := s.spectral_models ++ newModels
      some ({ s with
              spectral_models := modelsN,
              conflicts := spectral_model_conflicts modelsN ll }, true)

/-- `SpectralModelsTableView.delete_selected_rows`
(linelist_manager.py:860-876): drop the models at the selected indices,
then recompute `_spectral_model_conflicts` from the remaining models and
the current line list (flag `true`). -/
def modelsDeleteSelectedRows (s : GuiSession) (sel : List Nat) :
    Option (GuiSession × Bool) :=
  match s.line_list with
  | none => none
  | some ll =>
    let modelsN := (s.spectral_models.enum.filter (fun p => !(sel.contains p.1))).map (·.2)
    some ({ s with
            spectral_models := modelsN,
            conflicts := spectral_model_conflicts modelsN ll }, true)

/-- `LineListTableModel.sort` (linelist_manager.py:110-127): when the
session has no line list the call is a no-op; otherwise the list is sorted
by the chosen (numeric) column key, reversed when descending, and
`line_list_argsort_hashes` is recomputed from the stored result. -/
def lineListSort (s : GuiSession) (key : Transition → Rat) (descending : Bool) :
    GuiSession :=
  match s.line_list with
  | none => s
  | some ll =>
    let sorted0 := sortBy (fun a b => key a ≤ key b) ll
    let sorted := if descending then sorted0.reverse else sorted0
    { s with
      line_list := some sorted,
      argsort_hashes := some (argsortHashes (sorted.map (·.hash))) }

/-- Modelled from the spec: `LineList.merge(other, skip_exactly_equal_lines)`
(`smh.linelists`, outside `src/`) — transitions of `other` whose hash
already occurs in the base list are exactly-equal duplicates and are
skipped, the others are appended.  The conflict detection between
same-wavelength/species lines differing elsewhere is not modelled; no claim
depends on it. -/
def mergeLineList (base other : List Transition) : List Transition :=
  base ++ other.filter (fun t => !((base.map (·.hash)).contains t.hash))

/-- `LineListTableView.import_from_filename` (linelist_manager.py:410-456),
session-merge step: the freshly read lines are merged into the session line
list (or installed when none exists), and `line_list_argsort_hashes` is
recomputed from the line list just stored. -/
def importFromFilename (s : GuiSession) (newLines : List Transition) : GuiSession :=
  let llN := match s.line_list with
    | none => newLines
    | some ll => mergeLineList ll newLines
  { s with
    line_list := some llN,
    argsort_hashes := some (argsortHashes (llN.map (·.hash))) }

/-- Whether the table `line_list["equivalent_width"]` access succeeds: the
equivalent-width column is present on every row. -/
def hasEWColumn (ll : List Transition) : Bool :=
  ll.all (fun t => t.equivalent_width.isSome)

/-- `LineListTableView.import_transitions_with_measured_equivalent_widths`
(linelist_manager.py:460-522), file dialogs and per-model fitted metadata
aside (the stored equivalent-width formulas are embedded separately as
`measuredEquivalentWidth` and `measuredREW`).  The imported lines are
merged with the session line list into the local `line_list`;
`line_list_argsort_hashes` is then recomputed from
`session.metadata["line_list"]`, which in the merge branch is still the OLD
line list — the merged list is stored only afterwards.  One single-hash
profile model per merged line is appended and `_spectral_model_conflicts`
is recomputed (flag `true`).  `none` embeds the `KeyError` raised when no
equivalent widths are present. -/
def importMeasured (s : GuiSession) (newLines : List Transition) :
    Option (GuiSession × Bool) :=
  match s.line_list with
  | some existing =>
    let line_list := mergeLineList existing newLines
    let s1 := { s with argsort_hashes := some (argsortHashes (existing.map Transition.hash)) }
    if hasEWColumn line_list then
      let s2 := { s1 with line_list := some line_list }
      let modelsN := s2.spectral_models ++ line_list.map (fun t => SModel.mk [t.hash])
      some ({ s2 with
              spectral_models := modelsN,
              conflicts := spectral_model_conflicts modelsN line_list }, true)
    else none
  | none =>
    let s1 := { s with
                line_list := some newLines,
                argsort_hashes := some (argsortHashes (newLines.map Transition.hash)) }
    if hasEWColumn newLines then
      let modelsN := s1.spectral_models ++ newLines.map (fun t => SModel.mk [t.hash])
      some ({ s1 with
              spectral_models := modelsN,
              conflicts := spectral_model_conflicts modelsN newLines }, true)
    else none

/-! ### Claims C1, C2, C3 — line-list deletion, conflict recomputation, hash index -/

/-- Whether the transition at row `p` of the line list is referenced by a
spectral model. -/
def rowUsed (ll : List Transition) (used : List String) (p : Nat) : Bool :=
  (ll[p]?).any (fun t => used.contains t.hash)

/-- Whether row `p` survives `delete_selected_rows`: it is not selected, or
its hash is in use by a model. -/
def keepRow (ll : List Transition) (used : List String) (sel : List Nat) (p : Nat) : Bool :=
  !(sel.contains p) || rowUsed ll used p

/-- The deletion mask of `delete_selected_rows`, described row by row. -/
def specMask (ll : List Transition) (used : List String) (sel : List Nat) : List Bool :=
  (List.range ll.length).map (keepRow ll used sel)

theorem length_specMask (ll : List Transition) (used : List String) (sel : List Nat) :
    (specMask ll used sel).length = ll.length := by
  simp [specMask]

theorem getElem?_specMask (ll : List Transition) (used : List String) (sel : List Nat)
    (p : Nat) (h : p < ll.length) :
    (specMask ll used sel)[p]? = some (keepRow ll used sel p) := by
  simp [specMask, List.getElem?_range, h]

theorem keepRow_cons_of_used (ll : List Transition) (used : List String)
    (r : Nat) (rs : List Nat) (p : Nat) (h : rowUsed ll used r = true) :
    keepRow ll used (r :: rs) p = keepRow ll used rs p := by
  by_cases hpr : p = r
  · subst hpr
    simp [keepRow, h]
  · simp [keepRow, List.contains_cons, hpr]

theorem keepRow_cons_of_ne (ll : List Transition) (used : List String)
    (r : Nat) (rs : List Nat) (p : Nat) (h : p ≠ r) :
    keepRow ll used (r :: rs) p = keepRow ll used rs p := by
  simp [keepRow, List.contains_cons, h]

theorem keepRow_cons_self_of_unused (ll : List Transition) (used : List String)
    (r : Nat) (rs : List Nat) (h : rowUsed ll used r = false) :
    keepRow ll used (r :: rs) r = false := by
  simp [keepRow, List.contains_cons, h]

/-- Characterization of the selected-rows loop of
`LineListTableView.delete_selected_rows`: when every selected row is in
range the loop succeeds, preserves the mask length, and clears exactly the
mask entries of selected rows whose hash is unused. -/
theorem foldlM_deleteRowStep (ll : List Transition) (used : List String) :
    ∀ (sel : List Nat) (mask : List Bool), (∀ r ∈ sel, r < ll.length) →
    ∃ mN, sel.foldlM (deleteRowStep ll used) mask = some mN ∧
      mN.length = mask.length ∧
      ∀ p : Nat, mN[p]? = mask[p]?.map (fun b => b && keepRow ll used sel p)
  | [], mask, _ => by
    refine ⟨mask, by simp, rfl, fun p => ?_⟩
    cases mask[p]? <;> simp [keepRow]
  | r :: rs, mask, hsel => by
    have hr : r < ll.length := hsel r (List.mem_cons_self r rs)
    have ht : ll[r]? = some (ll[r]) := List.getElem?_eq_getElem hr
    have hstep : deleteRowStep ll used mask r
        = some (if used.contains (ll[r]).hash then mask else mask.set r false) := by
      simp [deleteRowStep, ht]
    have hrowused : rowUsed ll used r = used.contains (ll[r]).hash := by
      simp [rowUsed, ht]
    have hsel2 : ∀ q ∈ rs, q < ll.length := fun q hq => hsel q (List.mem_cons_of_mem r hq)
    rw [List.foldlM_cons, hstep]
    by_cases hu : used.contains (ll[r]).hash = true
    · rw [if_pos hu]
      obtain ⟨mN, heq, hlen, hpt⟩ := foldlM_deleteRowStep ll used rs mask hsel2
      refine ⟨mN, ?_, hlen, fun p => ?_⟩
      · simpa using heq
      · rw [hpt p, keepRow_cons_of_used ll used r rs p (by rw [hrowused]; exact hu)]
    · rw [if_neg hu]
      obtain ⟨mN, heq, hlen, hpt⟩ :=
        foldlM_deleteRowStep ll used rs (mask.set r false) hsel2
      refine ⟨mN, ?_, by rw [hlen, List.length_set], fun p => ?_⟩
      · simpa using heq
      · rw [hpt p]
        by_cases hpr : p = r
        · subst hpr
          rw [keepRow_cons_self_of_unused ll used p rs
            (by rw [hrowused]; exact Bool.eq_false_iff.mpr hu), List.getElem?_set]
          simp only [if_pos rfl]
          by_cases hplen : p < mask.length
          · rw [if_pos hplen]
            have : ∃ b, mask[p]? = some b := ⟨mask.get ⟨p, hplen⟩, List.getElem?_eq_getElem hplen⟩
            obtain ⟨b, hb⟩ := this
            simp [hb]
          · rw [if_neg hplen]
            have : mask[p]? = none := List.getElem?_eq_none (Nat.le_of_not_lt hplen)
            simp [this]
        · rw [List.getElem?_set, if_neg (fun hc => hpr hc.symm),
            keepRow_cons_of_ne ll used r rs p hpr]

/-- The selected-rows loop computes exactly the mask `specMask`. -/
theorem foldlM_deleteRowStep_spec (ll : List Transition) (used : List String)
    (sel : List Nat) (hsel : ∀ r ∈ sel, r < ll.length) :
    sel.foldlM (deleteRowStep ll used) (List.replicate ll.length true)
      = some (specMask ll used sel) := by
  obtain ⟨mN, heq, hlen, hpt⟩ :=
    foldlM_deleteRowStep ll used sel (List.replicate ll.length true) hsel
  rw [heq]
  congr 1
  refine List.ext_getElem? fun p => ?_
  rw [hpt p]
  by_cases hp : p < ll.length
  · rw [getElem?_specMask ll used sel p hp]
    simp [List.getElem?_replicate, hp]
  · have h1 : (List.replicate ll.length (true : Bool))[p]? = none :=
      List.getElem?_eq_none (by simpa using Nat.le_of_not_lt hp)
    have h2 : (specMask ll used sel)[p]? = none :=
      List.getElem?_eq_none (by rw [length_specMask]; exact Nat.le_of_not_lt hp)
    simp [h1, h2]

/-- A fully true mask of matching length keeps every row. -/
theorem applyMask_all_true :
    ∀ (ll : List Transition) (mask : List Bool), mask.all (fun b => b) = true →
      mask.length = ll.length → applyMask ll mask = ll
  | [], _, _, _ => by simp [applyMask]
  | t :: ll, true :: mask, hall, hlen => by
    have := applyMask_all_true ll mask (by simpa using hall) (by simpa using hlen)
    simp [applyMask] at this ⊢
    exact this
  | _ :: _, false :: _, hall, _ => by simp at hall

/-- A row whose mask entry is true is present in the masked selection. -/
theorem mem_applyMask :
    ∀ (ll : List Transition) (mask : List Bool) (p : Nat) (t : Transition),
      ll[p]? = some t → mask[p]? = some true → t ∈ applyMask ll mask
  | [], _, p, _, h, _ => by simp at h
  | _ :: _, [], p, _, _, h => by simp at h
  | a :: ll, b :: mask, 0, t, h1, h2 => by
    simp at h1 h2
    subst h1; subst h2
    simp [applyMask]
  | a :: ll, b :: mask, p + 1, t, h1, h2 => by
    have hmem := mem_applyMask ll mask p t (by simpa using h1) (by simpa using h2)
    cases b
    · simp [applyMask] at hmem ⊢
      exact hmem
    · simp [applyMask] at hmem ⊢
      exact Or.inr hmem

/-- Every transition whose hash is in use survives the deletion mask,
selected or not. -/
theorem referenced_mem_applyMask (ll : List Transition) (used : List String)
    (sel : List Nat) (t : Transition) (htmem : t ∈ ll)
    (hused : used.contains t.hash = true) :
    t ∈ applyMask ll (specMask ll used sel) := by
  obtain ⟨p, hp⟩ := List.mem_iff_getElem?.mp htmem
  have hplt : p < ll.length := by
    by_contra hcon
    rw [List.getElem?_eq_none (Nat.le_of_not_lt hcon)] at hp
    exact Option.noConfusion hp
  have hk : keepRow ll used sel p = true := by
    simp only [keepRow, rowUsed, hp, Option.any_some, hused, Bool.or_true]
  exact mem_applyMask ll _ p t hp (by rw [getElem?_specMask ll used sel p hplt, hk])

/-- Every unselected row survives the deletion mask. -/
theorem unselected_mem_applyMask (ll : List Transition) (used : List String)
    (sel : List Nat) (p : Nat) (t : Transition) (hp : ll[p]? = some t)
    (hnot : sel.contains p = false) :
    t ∈ applyMask ll (specMask ll used sel) := by
  have hplt : p < ll.length := by
    by_contra hcon
    rw [List.getElem?_eq_none (Nat.le_of_not_lt hcon)] at hp
    exact Option.noConfusion hp
  have hk : keepRow ll used sel p = true := by
    simp only [keepRow, hnot, Bool.not_false, Bool.true_or]
  exact mem_applyMask ll _ p t hp (by rw [getElem?_specMask ll used sel p hplt, hk])

/-- When every selected row is referenced, the deletion mask is fully
true. -/
theorem specMask_all_true (ll : List Transition) (used : List String)
    (sel : List Nat) (h : ∀ r ∈ sel, rowUsed ll used r = true) :
    (specMask ll used sel).all (fun b => b) = true := by
  rw [List.all_eq_true]
  intro b hb
  obtain ⟨p, _, hpb⟩ := List.mem_map.mp hb
  subst hpb
  by_cases hc : sel.contains p = true
  · have hmem : p ∈ sel := by simpa using hc
    simp only [keepRow, h p hmem, Bool.or_true]
  · simp only [keepRow, Bool.eq_false_iff.mpr hc, Bool.not_false, Bool.true_or]

def tr (h : String) (w : Rat) : Transition := { hash := h, wavelength := w }

/-- Session for the claim C1 counterexample: three transitions and one
spectral model referencing hash h1. -/
def c1Session : GuiSession :=
  { line_list := some [tr "h1" 5000, tr "h2" 5001, tr "h3" 5002],
    argsort_hashes := some [0, 1, 2],
    spectral_models := [SModel.mk ["h1"]],
    conflicts := [] }

/-- Claim C1 (counterexample): rows 0 (hash h1, referenced by the only
model) and 2 (hash h3, unreferenced) are selected.  The claim requires the
whole deletion to fail (InUseError, length unchanged, every transition
still present); the code instead keeps h1 but deletes h3, returning a
2-line list — no atomic rejection. -/
theorem delete_with_used_hash_still_deletes_unused_rows :
    usedHashes c1Session.spectral_models = ["h1"] ∧
    ((c1Session.line_list.getD [])[0]?).map Transition.hash = some "h1" ∧
    (lineListDeleteSelectedRows c1Session [0, 2]).map
      (fun r => ((r.1.line_list.getD []).map Transition.hash, r.2))
      = some (["h1", "h2"], false) := by
  refine ⟨by decide, by decide, by decide⟩

/-- Claim C1 (amended): deletion of selected line-list rows is refused per
transition, not atomically.  Selected transitions whose hash is referenced
by some spectral model are skipped (a warning dialog reports their count)
while the remaining selected transitions are deleted; every transition with
a referenced hash survives, every unselected row survives, and when every
selected row is referenced nothing at all is changed. -/
theorem delete_selected_rows_per_row_skip (s : GuiSession) (ll : List Transition)
    (sel : List Nat) (hll : s.line_list = some ll)
    (hsel : ∀ r ∈ sel, r < ll.length) :
    ∃ sN, lineListDeleteSelectedRows s sel = some (sN, false) ∧
      sN.line_list
        = some (applyMask ll (specMask ll (usedHashes s.spectral_models) sel)) ∧
      sN.spectral_models = s.spectral_models ∧
      (∀ t ∈ ll, (usedHashes s.spectral_models).contains t.hash = true →
        t ∈ applyMask ll (specMask ll (usedHashes s.spectral_models) sel)) ∧
      (∀ p : Nat, ∀ t, ll[p]? = some t → sel.contains p = false →
        t ∈ applyMask ll (specMask ll (usedHashes s.spectral_models) sel)) ∧
      ((∀ r ∈ sel, rowUsed ll (usedHashes s.spectral_models) r = true) → sN = s) := by
  have hfold := foldlM_deleteRowStep_spec ll (usedHashes s.spectral_models) sel hsel
  have hred : lineListDeleteSelectedRows s sel =
      (if (specMask ll (usedHashes s.spectral_models) sel).all (fun b => b) = true
       then some (s, false)
       else some ({ s with
          line_list := some (applyMask ll (specMask ll (usedHashes s.spectral_models) sel)),
          argsort_hashes := some (argsortHashes
            ((applyMask ll (specMask ll (usedHashes s.spectral_models) sel)).map
              (·.hash))) }, false)) := by
    simp only [lineListDeleteSelectedRows, hll, hfold]
  by_cases hall : (specMask ll (usedHashes s.spectral_models) sel).all (fun b => b) = true
  · refine ⟨s, ?_, ?_, rfl, ?_, ?_, fun _ => rfl⟩
    · rw [hred, if_pos hall]
    · rw [hll, applyMask_all_true ll _ hall (length_specMask ll _ sel)]
    · exact fun t ht hu => referenced_mem_applyMask ll _ sel t ht hu
    · exact fun p t hp hnp => unselected_mem_applyMask ll _ sel p t hp hnp
  · refine ⟨{ s with
        line_list := some (applyMask ll (specMask ll (usedHashes s.spectral_models) sel)),
        argsort_hashes := some (argsortHashes
          ((applyMask ll (specMask ll (usedHashes s.spectral_models) sel)).map
            (·.hash))) }, ?_, rfl, rfl, ?_, ?_, ?_⟩
    · rw [hred, if_neg hall]
    · exact fun t ht hu => referenced_mem_applyMask ll _ sel t ht hu
    · exact fun p t hp hnp => unselected_mem_applyMask ll _ sel p t hp hnp
    · intro hallsel
      exact absurd (specMask_all_true ll _ sel hallsel) hall

/-- Claim C1 witness: the amended theorem applied to the counterexample
session with rows 0 and 2 selected. -/
theorem delete_selected_rows_per_row_skip_witness :
    ∃ sN, lineListDeleteSelectedRows c1Session [0, 2] = some (sN, false) ∧
      sN.line_list = some (applyMask (c1Session.line_list.getD [])
        (specMask (c1Session.line_list.getD [])
          (usedHashes c1Session.spectral_models) [0, 2])) ∧
      sN.spectral_models = c1Session.spectral_models ∧
      (∀ t ∈ c1Session.line_list.getD [],
        (usedHashes c1Session.spectral_models).contains t.hash = true →
        t ∈ applyMask (c1Session.line_list.getD [])
          (specMask (c1Session.line_list.getD [])
            (usedHashes c1Session.spectral_models) [0, 2])) ∧
      (∀ p : Nat, ∀ t, (c1Session.line_list.getD [])[p]? = some t →
        ([0, 2] : List Nat).contains p = false →
        t ∈ applyMask (c1Session.line_list.getD [])
          (specMask (c1Session.line_list.getD [])
            (usedHashes c1Session.spectral_models) [0, 2])) ∧
      ((∀ r ∈ ([0, 2] : List Nat),
          rowUsed (c1Session.line_list.getD [])
            (usedHashes c1Session.spectral_models) r = true) → sN = c1Session) :=
  delete_selected_rows_per_row_skip c1Session _ [0, 2] rfl (by decide)

/-- The conflict-group computation never depends on the line list passed to
it. -/
theorem spectral_model_conflicts_store_irrelevant (models : List SModel)
    (a b : List Transition) :
    spectral_model_conflicts models a = spectral_model_conflicts models b := rfl

/-- Session for the claim C2 counterexample: two models sharing hash h1
(one conflict group) and three transitions. -/
def c2Session : GuiSession :=
  { line_list := some [tr "h1" 5000, tr "h2" 5001, tr "h3" 5002],
    argsort_hashes := some [0, 1, 2],
    spectral_models := [SModel.mk ["h1"], SModel.mk ["h1"]],
    conflicts := [[0, 1]] }

/-- Claim C2 (counterexample): deleting the unreferenced transition h3 is a
structural change that completes (the line list shrinks from 3 rows to 2),
yet `LineListTableView.delete_selected_rows` never recomputes
`_spectral_model_conflicts` — the recompute flag is `false` and the stored
groups are carried over verbatim instead of being recomputed. -/
theorem delete_transition_completes_without_conflict_recompute :
    (c2Session.line_list.getD []).length = 3 ∧
    (lineListDeleteSelectedRows c2Session [2]).map
      (fun r => ((r.1.line_list.getD []).map Transition.hash, r.1.conflicts, r.2))
      = some (["h1", "h2"], [[0, 1]], false) := by
  refine ⟨by decide, by decide⟩

/-- Claim C2 (amended): model creation and model deletion recompute the
stored conflict groups from the now-current model list and line list
(recompute flag `true`); deletion of transitions from the line list
performs no recomputation (flag `false`) and carries the stored groups
over, which still equal a fresh computation whenever they did before the
deletion, because the model list is unchanged and the conflict computation
does not depend on the line list. -/
theorem conflicts_recomputed_after_structural_change (s : GuiSession) (sel : List Nat) :
    (∀ r ∈ addSelectedRowsAsProfileModels s sel, r.2 = true ∧
       r.1.conflicts
         = spectral_model_conflicts r.1.spectral_models (r.1.line_list.getD [])) ∧
    (∀ r ∈ modelsDeleteSelectedRows s sel, r.2 = true ∧
       r.1.conflicts
         = spectral_model_conflicts r.1.spectral_models (r.1.line_list.getD [])) ∧
    (∀ r ∈ lineListDeleteSelectedRows s sel, r.2 = false ∧
       r.1.conflicts = s.conflicts ∧ r.1.spectral_models = s.spectral_models ∧
       (s.conflicts = spectral_model_conflicts s.spectral_models (s.line_list.getD []) →
        r.1.conflicts
          = spectral_model_conflicts r.1.spectral_models (r.1.line_list.getD []))) := by
  refine ⟨?_, ?_, ?_⟩
  · intro r hr
    rw [Option.mem_def] at hr
    cases hl : s.line_list with
    | none =>
      simp only [addSelectedRowsAsProfileModels, hl] at hr
      exact Option.noConfusion hr
    | some ll =>
      cases hm : sel.mapM (fun r => (ll[r]?).map (fun t => SModel.mk [t.hash])) with
      | none =>
        simp only [addSelectedRowsAsProfileModels, hl, hm] at hr
        exact Option.noConfusion hr
      | some newModels =>
        simp only [addSelectedRowsAsProfileModels, hl, hm, Option.some.injEq] at hr
        subst hr
        exact ⟨rfl, rfl⟩
  · intro r hr
    rw [Option.mem_def] at hr
    cases hl : s.line_list with
    | none =>
      simp only [modelsDeleteSelectedRows, hl] at hr
      exact Option.noConfusion hr
    | some ll =>
      simp only [modelsDeleteSelectedRows, hl, Option.some.injEq] at hr
      subst hr
      exact ⟨rfl, rfl⟩
  · intro r hr
    rw [Option.mem_def] at hr
    cases hl : s.line_list with
    | none =>
      simp only [lineListDeleteSelectedRows, hl] at hr
      exact Option.noConfusion hr
    | some ll =>
      cases hm : sel.foldlM (deleteRowStep ll (usedHashes s.spectral_models))
          (List.replicate ll.length true) with
      | none =>
        simp only [lineListDeleteSelectedRows, hl, hm] at hr
        exact Option.noConfusion hr
      | some mask =>
        simp only [lineListDeleteSelectedRows, hl, hm] at hr
        by_cases hall : mask.all (fun b => b) = true
        · rw [if_pos hall, Option.some.injEq] at hr
          subst hr
          exact ⟨rfl, rfl, rfl, fun h => h⟩
        · rw [if_neg hall, Option.some.injEq] at hr
          subst hr
          exact ⟨rfl, rfl, rfl, fun h => h⟩

/-- Claim C2 witness: model creation on the counterexample session
recomputes the conflict groups from the current state. -/
theorem conflicts_recomputed_after_structural_change_witness :
    ∃ r, addSelectedRowsAsProfileModels c2Session [0] = some r ∧ r.2 = true ∧
      r.1.conflicts
        = spectral_model_conflicts r.1.spectral_models (r.1.line_list.getD []) := by
  obtain ⟨hc, _, _⟩ := conflicts_recomputed_after_structural_change c2Session [0]
  exact ⟨_, rfl, hc _ rfl⟩

/-- Session for the claim C3 failing input: one existing pre-measured line
with hash b; one further measured line with hash a is imported. -/
def measuredSession : GuiSession :=
  { line_list := some [{ hash := "b", wavelength := 5000, equivalent_width := some 50 }],
    argsort_hashes := some [0],
    spectral_models := [],
    conflicts := [] }

/-- The measured line list imported in the claim C3 failing input. -/
def measuredNewLines : List Transition :=
  [{ hash := "a", wavelength := 4000, equivalent_width := some 40 }]

/-- Claim C3 (code bug, failing input): importing measured transitions into
a session that already has a line list recomputes
`line_list_argsort_hashes` from the OLD session line list and only then
stores the merged list.  The operation completes with the two-row line list
[b, a] but the stored index is [0] — the argsort of the one-row pre-merge
list — while the argsort of the current hash column is [1, 0].  This
contradicts the adjacent source comment ("Must update hash sorting after
any modification to line list"). -/
theorem measured_import_leaves_stale_hash_index :
    (importMeasured measuredSession measuredNewLines).map
      (fun r => (r.1.argsort_hashes, (r.1.line_list.getD []).map Transition.hash))
      = some (some [0], ["b", "a"]) ∧
    argsortHashes ["b", "a"] = [1, 0] := by
  refine ⟨by decide, by decide⟩

/-! ### Claims C4, C5 — batch fitting and batched abundance measurement -/

/-- The diagnostics entry (last element) of a model `fitted_result`: the
fitted equivalent width in Angstroms (`none` encodes a stored non-finite
value) and the derived abundance list when present. -/
structure CAFitted where
  equivalent_width : Option Rat
  abundances : Option (List Rat)
deriving DecidableEq, Repr

/-- A spectral model as `chemical_abundances.py` uses it: its variant
(synthesis or profile fitting), `_transition_indices` into the session
line list, the `is_acceptable` flag, and the `fitted_result` slot (`none`
when unfit). -/
structure CAModel where
  isSynthesis : Bool
  transition_indices : List Nat
  is_acceptable : Bool
  fitted : Option CAFitted
deriving DecidableEq, Repr

/-- Modelled from the spec: `SpectralModel.fit` (smh.spectral_models,
outside src/) — on success the fit-result slot is overwritten; on failure
(raised as ValueError or RuntimeError, which the `fit_all` loops catch and
only log) the previous slot is left untouched.  The numerical outcome is
the oracle `fitF`: `some r` means the fit converged with diagnostics `r`,
`none` means it failed. -/
def applyFit (fitF : CAModel → Option CAFitted) (m : CAModel) : CAModel :=
  match fitF m with
  | some r => { m with fitted := some r }
  | none => m

/-- First loop of `ChemicalAbundancesTab.fit_all`: fit every acceptable
model (each call wrapped in a try/except that only logs), counting and
skipping the unacceptable ones. -/
def fitAcceptableLoop (fitF : CAModel → Option CAFitted) : List CAModel → List CAModel
  | [] => []
  | m :: ms =>
      (if m.is_acceptable then applyFit fitF m else m) :: fitAcceptableLoop fitF ms

/-- Fallback loop of `fit_all`: fit every model. -/
def fitAllLoop (fitF : CAModel → Option CAFitted) (ms : List CAModel) : List CAModel :=
  ms.map (applyFit fitF)

/-- `ChemicalAbundancesTab.fit_all` (chemical_abundances.py:567-607): fit
all acceptable models; when the number of unacceptable models equals the
table row count (the length of the model list — that is, none is
acceptable), run the fallback loop fitting every model. -/
def fit_all (fitF : CAModel → Option CAFitted) (models : List CAModel) : List CAModel :=
  let num_unacceptable := (models.filter (fun m => !m.is_acceptable)).length
  let models1 := fitAcceptableLoop fitF models
  if num_unacceptable = models.length then fitAllLoop fitF models1 else models1

theorem length_filter_eq_iff {p : α → Bool} :
    ∀ l : List α, ((l.filter p).length = l.length ↔ ∀ a ∈ l, p a = true)
  | [] => by simp
  | a :: l => by
    by_cases hp : p a = true
    · simp only [List.filter_cons, hp, if_true, List.length_cons, Nat.add_right_cancel_iff,
        List.mem_cons]
      rw [length_filter_eq_iff l]
      constructor
      · rintro h b (rfl | hb)
        · exact hp
        · exact h b hb
      · intro h b hb
        exact h b (Or.inr hb)
    · have hp2 : p a = false := Bool.eq_false_iff.mpr hp
      simp only [List.filter_cons, hp2, Bool.false_eq_true, if_false, List.length_cons,
        List.mem_cons]
      constructor
      · intro h
        exfalso
        have hle := List.length_filter_le p l
        omega
      · intro h
        exact absurd (h a (Or.inl rfl)) hp

theorem fitAcceptableLoop_eq_map (fitF : CAModel → Option CAFitted) :
    ∀ ms : List CAModel, fitAcceptableLoop fitF ms
      = ms.map (fun m => if m.is_acceptable then applyFit fitF m else m)
  | [] => rfl
  | m :: ms => by
    simp only [fitAcceptableLoop, List.map_cons, fitAcceptableLoop_eq_map fitF ms]

theorem fitAcceptableLoop_id_of_none (fitF : CAModel → Option CAFitted) :
    ∀ ms : List CAModel, (∀ m ∈ ms, m.is_acceptable = false) →
      fitAcceptableLoop fitF ms = ms
  | [], _ => rfl
  | m :: ms, h => by
    have hm : m.is_acceptable = false := h m (List.mem_cons_self m ms)
    simp only [fitAcceptableLoop, hm, Bool.false_eq_true, if_false,
      fitAcceptableLoop_id_of_none fitF ms (fun q hq => h q (List.mem_cons_of_mem m hq))]

/-- Claim C4: bulk fitting fits every acceptable model; when no model is
acceptable it falls back to fitting every model.  The outcome at each
index depends only on that model and the fit oracle (so a failure on one
model cannot abort the batch and earlier successes are retained), a failed
fit leaves its model untouched, and a successful fit overwrites exactly the
fit-result slot. -/
theorem fit_all_fits_acceptable_or_all (fitF : CAModel → Option CAFitted)
    (models : List CAModel) :
    (fit_all fitF models).length = models.length ∧
    (∀ i : Nat, (fit_all fitF models)[i]? = (models[i]?).map (fun m =>
        if models.any (·.is_acceptable) = true then
          (if m.is_acceptable then applyFit fitF m else m)
        else applyFit fitF m)) ∧
    (∀ m, fitF m = none → applyFit fitF m = m) ∧
    (∀ m r, fitF m = some r → applyFit fitF m = { m with fitted := some r }) := by
  have hlink : (models.filter (fun m => !m.is_acceptable)).length = models.length
      ↔ models.any (·.is_acceptable) = false := by
    rw [length_filter_eq_iff models, List.any_eq_false]
    constructor
    · intro h m hm
      simpa using h m hm
    · intro h m hm
      simpa using h m hm
  refine ⟨?_, ?_, ?_, ?_⟩
  · simp only [fit_all]
    by_cases hc : (models.filter (fun m => !m.is_acceptable)).length = models.length
    · rw [if_pos hc]
      simp [fitAllLoop, fitAcceptableLoop_eq_map]
    · rw [if_neg hc]
      simp [fitAcceptableLoop_eq_map]
  · intro i
    simp only [fit_all]
    rcases Bool.eq_false_or_eq_true (models.any (·.is_acceptable)) with htrue | hfalse
    · have hc : ¬ (models.filter (fun m => !m.is_acceptable)).length = models.length := by
        intro hcc
        rw [hlink, htrue] at hcc
        simp at hcc
      rw [if_neg hc, fitAcceptableLoop_eq_map, List.getElem?_map]
      simp only [htrue]
      cases models[i]? <;> simp
    · have hc : (models.filter (fun m => !m.is_acceptable)).length = models.length :=
        hlink.mpr hfalse
      have hnoneacc : ∀ m ∈ models, m.is_acceptable = false := by
        intro m hm
        simpa using List.any_eq_false.mp hfalse m hm
      rw [if_pos hc, fitAcceptableLoop_id_of_none fitF models hnoneacc, fitAllLoop,
        List.getElem?_map]
      simp only [hfalse]
      cases models[i]? <;> simp
  · intro m hm
    simp [applyFit, hm]
  · intro m r hm
    simp [applyFit, hm]

/-- An acceptable profile model used in the claim C4 and C5 witnesses. -/
def c4Model : CAModel :=
  { isSynthesis := false, transition_indices := [0],
    is_acceptable := true, fitted := none }

/-- An unacceptable model whose fit fails, used in the claim C4 witness. -/
def c4Bad : CAModel :=
  { isSynthesis := false, transition_indices := [1],
    is_acceptable := false, fitted := none }

/-- A fit oracle that succeeds on acceptable models and fails otherwise. -/
def c4FitF : CAModel → Option CAFitted :=
  fun m => if m.is_acceptable then some { equivalent_width := some 1, abundances := none }
           else none

/-- Claim C4 witness: the batch theorem applied to a two-model list where
the second model is unacceptable and its fit would fail. -/
theorem fit_all_fits_acceptable_or_all_witness :
    (fit_all c4FitF [c4Model, c4Bad])[1]?
      = some (if c4Bad.is_acceptable then applyFit c4FitF c4Bad else c4Bad) ∧
    applyFit c4FitF c4Bad = c4Bad := by
  have h := fit_all_fits_acceptable_or_all c4FitF [c4Model, c4Bad]
  refine ⟨?_, h.2.2.1 c4Bad rfl⟩
  rw [h.2.1 1]
  decide

/-- The scan loop of `ChemicalAbundancesTab.measure_all`
(chemical_abundances.py:614-628), starting at model index `i`: profile
models contribute their model index, their transition indices and one
equivalent width — 1000 times the fitted width when the model is
acceptable (`none` embeds the stored non-finite value), NaN (`none`)
otherwise; synthesis models are only logged and skipped.  An acceptable
profile model without a `fitted_result` raises `KeyError`, embedded as
`none`. -/
def measureScan : Nat → List CAModel → Option (List Nat × List Nat × List (Option Rat))
  | _, [] => some ([], [], [])
  | i, m :: ms =>
    match measureScan (i + 1) ms with
    | none => none
    | some (smi, ti, ews) =>
      if m.isSynthesis then some (smi, ti, ews)
      else
        match (if m.is_acceptable
               then m.fitted.map (fun f => f.equivalent_width.map (fun w => 1000 * w))
               else some none) with
        | none => none
        | some ew => some (i :: smi, m.transition_indices ++ ti, ew :: ews)

/-- Write-back step of `measure_all`:
`models[index].metadata["fitted_result"][-1]["abundances"] = [abundance]`
(`none` embeds an out-of-range index or a missing fitted result). -/
def setAbundance (models : List CAModel) (idx : Nat) (ab : Rat) : Option (List CAModel) :=
  match models[idx]? with
  | none => none
  | some m =>
    match m.fitted with
    | none => none
    | some f =>
      some (models.set idx { m with fitted := some { f with abundances := some [ab] } })

/-- `ChemicalAbundancesTab.measure_all` (chemical_abundances.py:609-650).
`cog` is the external `rt.abundance_cog(photosphere, transitions)`
collaborator, called once on the transition rows whose equivalent-width
column was overwritten with the per-model widths, restricted to the rows
whose width is finite.  `none` embeds the uncaught exceptions of the
source: the ValueError raised when nothing was measured or no width is
finite, an out-of-range transition index, and the numpy length mismatches
that arise when a profile model owns more than one transition. -/
def measure_all (cog : List Transition → List Rat) (line_list : List Transition)
    (models : List CAModel) : Option (List CAModel) :=
  match measureScan 0 models with
  | none => none
  | some (smi, ti, ews) =>
    if ews.isEmpty || ews.all (fun w => w.isNone) then none
    else
      match ti.mapM (fun k => line_list[k]?) with
      | none => none
      | some transRows =>
        if transRows.length = ews.length then
          let transitions := (transRows.zip ews).map
            (fun p => { p.1 with equivalent_width := p.2 })
          let finite := transitions.map (fun t => t.equivalent_width.isSome)
          let abundances := cog (((transitions.zip finite).filter (·.2)).map (·.1))
          if smi.length = finite.length then
            let selIdx := ((smi.zip finite).filter (·.2)).map (·.1)
            (selIdx.zip abundances).foldlM (fun ms p => setAbundance ms p.1 p.2) models
          else none
        else none

/-- The claim C5 wording — the equivalent width `measure_all` records for a
profile model: 1000 times the fitted width when the model is acceptable and
fitted, NaN (`none`) otherwise. -/
def recordedEW (m : CAModel) : Option Rat :=
  if m.is_acceptable
  then m.fitted.bind (fun f => f.equivalent_width.map (fun w => 1000 * w))
  else none

/-- The claim C5 wording — a model that reaches the batched external call:
a profile-fitting model whose recorded equivalent width is finite. -/
def eligible (m : CAModel) : Bool := !m.isSynthesis && (recordedEW m).isSome

/-- Model indices collected by the scan (profile models only), counting
from `i`. -/
def profileIdxFrom (i : Nat) : List CAModel → List Nat
  | [] => []
  | m :: ms =>
    if m.isSynthesis then profileIdxFrom (i + 1) ms
    else i :: profileIdxFrom (i + 1) ms

/-- Transition indices collected by the scan (profile models only). -/
def profileTIs : List CAModel → List Nat
  | [] => []
  | m :: ms =>
    if m.isSynthesis then profileTIs ms
    else m.transition_indices ++ profileTIs ms

/-- Equivalent widths collected by the scan (profile models only). -/
def profileEWs : List CAModel → List (Option Rat)
  | [] => []
  | m :: ms =>
    if m.isSynthesis then profileEWs ms
    else recordedEW m :: profileEWs ms

/-- Line-list rows of the transitions owned by the profile models. -/
def profileRows (line_list : List Transition) : List CAModel → List Transition
  | [] => []
  | m :: ms =>
    if m.isSynthesis then profileRows line_list ms
    else m.transition_indices.filterMap (fun k => line_list[k]?) ++ profileRows line_list ms

/-- Indices of the eligible models, counting from `i`. -/
def eligibleIdxFrom (i : Nat) : List CAModel → List Nat
  | [] => []
  | m :: ms =>
    if eligible m then i :: eligibleIdxFrom (i + 1) ms
    else eligibleIdxFrom (i + 1) ms

/-- Indices of the models whose abundance is written back by
`measure_all` — the claim C5 wording. -/
def eligibleIdx (models : List CAModel) : List Nat := eligibleIdxFrom 0 models

/-- The claim C5 wording — the argument of the single batched
`abundance_cog` call: for each eligible model in index order, the
line-list row of its one owned transition with the equivalent-width column
set to the recorded (finite) width. -/
def cogArgSpec (line_list : List Transition) (models : List CAModel) : List Transition :=
  models.filterMap (fun m =>
    if eligible m then
      (m.transition_indices.head?).bind (fun k =>
        (line_list[k]?).map (fun t => { t with equivalent_width := recordedEW m }))
    else none)

theorem zip_setEW_map_isSome :
    ∀ (as : List Transition) (bs : List (Option Rat)),
      ((as.zip bs).map (fun p => { p.1 with equivalent_width := p.2 })).map
          (fun t => t.equivalent_width.isSome)
        = (bs.take as.length).map Option.isSome
  | [], _ => rfl
  | _ :: _, [] => rfl
  | a :: as, b :: bs => by
    simp only [List.zip_cons_cons, List.map_cons, List.length_cons, List.take_succ_cons]
    rw [zip_setEW_map_isSome as bs]

theorem cogArgSpec_cons_eligible (line_list : List Transition) (m : CAModel)
    (ms : List CAModel) (k : Nat) (t : Transition) (he : eligible m = true)
    (hk : m.transition_indices = [k]) (ht : line_list[k]? = some t) :
    cogArgSpec line_list (m :: ms)
      = { t with equivalent_width := recordedEW m } :: cogArgSpec line_list ms := by
  simp [cogArgSpec, List.filterMap_cons, he, hk, ht]

theorem cogArgSpec_cons_not (line_list : List Transition) (m : CAModel)
    (ms : List CAModel) (he : eligible m = false) :
    cogArgSpec line_list (m :: ms) = cogArgSpec line_list ms := by
  simp [cogArgSpec, List.filterMap_cons, he]

theorem measure_pipeline (line_list : List Transition) :
    ∀ (ms : List CAModel),
      (∀ m ∈ ms, m.isSynthesis = false → m.is_acceptable = true → m.fitted.isSome = true) →
      (∀ m ∈ ms, m.isSynthesis = false →
        ∃ k t, m.transition_indices = [k] ∧ line_list[k]? = some t) →
      ∀ i : Nat,
      measureScan i ms = some (profileIdxFrom i ms, profileTIs ms, profileEWs ms) ∧
      (profileTIs ms).mapM (fun k => line_list[k]?) = some (profileRows line_list ms) ∧
      (profileRows line_list ms).length = (profileEWs ms).length ∧
      (profileIdxFrom i ms).length = (profileEWs ms).length ∧
      (((((profileRows line_list ms).zip (profileEWs ms)).map
            (fun p => { p.1 with equivalent_width := p.2 })).zip
          ((profileEWs ms).map Option.isSome)).filter (·.2)).map (·.1)
        = cogArgSpec line_list ms ∧
      ((((profileIdxFrom i ms).zip ((profileEWs ms).map Option.isSome)).filter
          (·.2)).map (·.1))
        = eligibleIdxFrom i ms
  | [], _, _, i => by
    refine ⟨rfl, rfl, rfl, rfl, rfl, rfl⟩
  | m :: ms, hfit, hone, i => by
    have hfit2 : ∀ q ∈ ms, q.isSynthesis = false → q.is_acceptable = true →
        q.fitted.isSome = true :=
      fun q hq => hfit q (List.mem_cons_of_mem m hq)
    have hone2 : ∀ q ∈ ms, q.isSynthesis = false →
        ∃ k t, q.transition_indices = [k] ∧ line_list[k]? = some t :=
      fun q hq => hone q (List.mem_cons_of_mem m hq)
    obtain ⟨ih1, ih2, ih3, ih4, ih5, ih6⟩ :=
      measure_pipeline line_list ms hfit2 hone2 (i + 1)
    by_cases hsyn : m.isSynthesis = true
    · have he : eligible m = false := by simp [eligible, hsyn]
      refine ⟨?_, ?_, ?_, ?_, ?_, ?_⟩
      · simp only [measureScan, ih1, hsyn, if_true, profileIdxFrom, profileTIs, profileEWs]
      · simp only [profileTIs, hsyn, if_true, profileRows, ih2]
      · simp only [profileRows, profileEWs, hsyn, if_true, ih3]
      · simp only [profileIdxFrom, profileEWs, hsyn, if_true, ih4]
      · rw [cogArgSpec_cons_not line_list m ms he]
        simp only [profileRows, profileEWs, hsyn, if_true]
        exact ih5
      · simp only [profileIdxFrom, profileEWs, hsyn, if_true, eligibleIdxFrom, he,
          Bool.false_eq_true, if_false]
        exact ih6
    · have hsyn2 : m.isSynthesis = false := Bool.eq_false_iff.mpr hsyn
      obtain ⟨k, t, hk, ht⟩ := hone m (List.mem_cons_self m ms) hsyn2
      have hew : (if m.is_acceptable
            then m.fitted.map (fun f => f.equivalent_width.map (fun w => 1000 * w))
            else some none) = some (recordedEW m) := by
        by_cases hacc : m.is_acceptable = true
        · obtain ⟨f, hf⟩ := Option.isSome_iff_exists.mp
            (hfit m (List.mem_cons_self m ms) hsyn2 hacc)
          simp [recordedEW, hacc, hf]
        · simp [recordedEW, hacc]
      have hrowk : m.transition_indices.filterMap (fun q => line_list[q]?) = [t] := by
        rw [hk]
        simp [ht]
      refine ⟨?_, ?_, ?_, ?_, ?_, ?_⟩
      · simp only [measureScan, ih1, hsyn2, Bool.false_eq_true, if_false, hew,
          profileIdxFrom, profileTIs, profileEWs]
      · simp only [profileTIs, profileRows, hsyn2, Bool.false_eq_true, if_false, hk,
          List.cons_append, List.nil_append, List.mapM_cons, ht, ih2, hrowk]
        simp [ht]
      · simp only [profileRows, profileEWs, hsyn2, Bool.false_eq_true, if_false, hrowk,
          List.cons_append, List.nil_append, List.length_cons, ih3]
      · simp only [profileIdxFrom, profileEWs, hsyn2, Bool.false_eq_true, if_false,
          List.length_cons, ih4]
      · simp only [profileRows, profileEWs, hsyn2, Bool.false_eq_true, if_false, hrowk,
          List.cons_append, List.nil_append, List.map_cons, List.zip_cons_cons,
          List.filter_cons]
        by_cases hsome : (recordedEW m).isSome = true
        · have helig : eligible m = true := by simp [eligible, hsyn2, hsome]
          rw [cogArgSpec_cons_eligible line_list m ms k t helig hk ht]
          simp only [hsome, if_true, List.map_cons]
          rw [ih5]
        · have helig : eligible m = false := by simp [eligible, hsyn2, hsome]
          rw [cogArgSpec_cons_not line_list m ms helig]
          simp only [Bool.eq_false_iff.mpr hsome, Bool.false_eq_true, if_false]
          exact ih5
      · simp only [profileIdxFrom, profileEWs, hsyn2, Bool.false_eq_true, if_false,
          List.map_cons, List.zip_cons_cons, List.filter_cons]
        by_cases hsome : (recordedEW m).isSome = true
        · have helig : eligible m = true := by simp [eligible, hsyn2, hsome]
          simp only [hsome, if_true, List.map_cons, eligibleIdxFrom, helig]
          rw [ih6]
        · have helig : eligible m = false := by simp [eligible, hsyn2, hsome]
          simp only [Bool.eq_false_iff.mpr hsome, Bool.false_eq_true, if_false,
            eligibleIdxFrom, helig]
          exact ih6

theorem profileEWs_any_isSome :
    ∀ ms : List CAModel, ∀ m ∈ ms, eligible m = true →
      (profileEWs ms).any Option.isSome = true
  | m0 :: ms, m, hm, he => by
    rcases List.mem_cons.mp hm with rfl | htail
    · have hsyn : m.isSynthesis = false := by
        have := he
        simp only [eligible, Bool.and_eq_true, Bool.not_eq_true'] at this
        exact this.1
      have hsome : (recordedEW m).isSome = true := by
        have := he
        simp only [eligible, Bool.and_eq_true] at this
        exact this.2
      simp [profileEWs, hsyn, hsome]
    · have ih := profileEWs_any_isSome ms m htail he
      by_cases hsyn : m0.isSynthesis = true
      · simpa [profileEWs, hsyn] using ih
      · simp [profileEWs, Bool.eq_false_iff.mpr hsyn, ih]

theorem eligibleIdxFrom_ge :
    ∀ (ms : List CAModel) (i j : Nat), j ∈ eligibleIdxFrom i ms → i ≤ j
  | [], i, j, h => by simp [eligibleIdxFrom] at h
  | m :: ms, i, j, h => by
    by_cases he : eligible m = true
    · simp only [eligibleIdxFrom, he, if_true, List.mem_cons] at h
      rcases h with rfl | h
      · exact Nat.le_refl j
      · exact Nat.le_of_succ_le (eligibleIdxFrom_ge ms (i + 1) j h)
    · simp only [eligibleIdxFrom, he, if_false] at h
      exact Nat.le_of_succ_le (eligibleIdxFrom_ge ms (i + 1) j h)

theorem eligibleIdxFrom_pairwise :
    ∀ (ms : List CAModel) (i : Nat), (eligibleIdxFrom i ms).Pairwise (· ≠ ·)
  | [], i => by simp [eligibleIdxFrom]
  | m :: ms, i => by
    by_cases he : eligible m = true
    · simp only [eligibleIdxFrom, he, if_true]
      refine List.Pairwise.cons ?_ (eligibleIdxFrom_pairwise ms (i + 1))
      intro j hj
      have := eligibleIdxFrom_ge ms (i + 1) j hj
      omega
    · simp only [eligibleIdxFrom, he, if_false]
      exact eligibleIdxFrom_pairwise ms (i + 1)

theorem eligibleIdxFrom_mem_models :
    ∀ (ms : List CAModel) (i j : Nat), j ∈ eligibleIdxFrom i ms →
      ∃ m, ms[j - i]? = some m ∧ eligible m = true
  | [], i, j, h => by simp [eligibleIdxFrom] at h
  | m :: ms, i, j, h => by
    by_cases he : eligible m = true
    · simp only [eligibleIdxFrom, he, if_true, List.mem_cons] at h
      rcases h with rfl | h
      · refine ⟨m, ?_, he⟩
        simp [Nat.sub_self]
      · obtain ⟨q, hq, hqe⟩ := eligibleIdxFrom_mem_models ms (i + 1) j h
        have hge := eligibleIdxFrom_ge ms (i + 1) j h
        refine ⟨q, ?_, hqe⟩
        have hji : j - i = (j - (i + 1)) + 1 := by omega
        rw [hji, List.getElem?_cons_succ]
        exact hq
    · simp only [eligibleIdxFrom, he, if_false] at h
      obtain ⟨q, hq, hqe⟩ := eligibleIdxFrom_mem_models ms (i + 1) j h
      have hge := eligibleIdxFrom_ge ms (i + 1) j h
      refine ⟨q, ?_, hqe⟩
      have hji : j - i = (j - (i + 1)) + 1 := by omega
      rw [hji, List.getElem?_cons_succ]
      exact hq

theorem eligible_fitted (m : CAModel) (h : eligible m = true) :
    m.isSynthesis = false ∧ m.is_acceptable = true ∧ ∃ f, m.fitted = some f := by
  simp only [eligible, Bool.and_eq_true, Bool.not_eq_true'] at h
  obtain ⟨hsyn, hsome⟩ := h
  refine ⟨hsyn, ?_, ?_⟩
  · by_contra hacc
    rw [recordedEW, if_neg hacc] at hsome
    simp at hsome
  · cases hf : m.fitted with
    | none =>
      rw [recordedEW, hf] at hsome
      by_cases hacc : m.is_acceptable = true <;> simp [hacc] at hsome
    | some f => exact ⟨f, rfl⟩

theorem lookup_eq_none_of_forall_ne :
    ∀ (ps : List (Nat × Rat)) (i : Nat), (∀ p ∈ ps, ¬ p.1 = i) → ps.lookup i = none
  | [], _, _ => rfl
  | (k, v) :: ps, i, h => by
    have hk : ¬ k = i := h (k, v) (List.mem_cons_self _ _)
    have hik : (i == k) = false := by
      simp only [beq_eq_false_iff_ne, ne_eq]
      exact fun hc => hk hc.symm
    simp only [List.lookup, hik]
    exact lookup_eq_none_of_forall_ne ps i (fun p hp => h p (List.mem_cons_of_mem _ hp))

theorem lookup_of_getElem? :
    ∀ (ps : List (Nat × Rat)), (ps.map (·.1)).Pairwise (· ≠ ·) →
      ∀ (j i : Nat) (ab : Rat), ps[j]? = some (i, ab) → ps.lookup i = some ab
  | [], _, j, i, ab, h => by simp at h
  | (k, v) :: ps, hpw, 0, i, ab, h => by
    simp only [List.getElem?_cons_zero, Option.some.injEq, Prod.mk.injEq] at h
    obtain ⟨rfl, rfl⟩ := h
    simp [List.lookup]
  | (k, v) :: ps, hpw, j + 1, i, ab, h => by
    rw [List.getElem?_cons_succ] at h
    have hmem : (i, ab) ∈ ps := List.getElem?_mem h
    have hki : ¬ k = i := by
      have hrel := (List.pairwise_cons.mp (by
        simpa only [List.map_cons] using hpw)).1
      intro hc
      exact hrel i (List.mem_map.mpr ⟨(i, ab), hmem, rfl⟩) hc
    have hik : (i == k) = false := by
      simp only [beq_eq_false_iff_ne, ne_eq]
      exact fun hc => hki hc.symm
    simp only [List.lookup, hik]
    exact lookup_of_getElem? ps (by
      have := List.pairwise_cons.mp (by simpa only [List.map_cons] using hpw)
      exact this.2) j i ab h

theorem foldlM_setAbundance :
    ∀ (ps : List (Nat × Rat)) (models : List CAModel),
      (ps.map (·.1)).Pairwise (· ≠ ·) →
      (∀ p ∈ ps, ∃ m f, models[p.1]? = some m ∧ m.fitted = some f) →
      ∃ out, ps.foldlM (fun ms p => setAbundance ms p.1 p.2) models = some out ∧
        out.length = models.length ∧
        ∀ i : Nat, out[i]? =
          match ps.lookup i with
          | some ab => models[i]?.map (fun m =>
              { m with fitted := m.fitted.map (fun f => { f with abundances := some [ab] }) })
          | none => models[i]?
  | [], models, _, _ => by
    refine ⟨models, by simp, rfl, fun i => by simp [List.lookup]⟩
  | (idx, ab) :: ps, models, hpw, hin => by
    obtain ⟨m, f, hm, hf⟩ := hin (idx, ab) (List.mem_cons_self _ _)
    have hidxlt : idx < models.length := by
      by_contra hc
      rw [List.getElem?_eq_none (Nat.le_of_not_lt hc)] at hm
      exact Option.noConfusion hm
    have hpwtail : (ps.map (·.1)).Pairwise (· ≠ ·) := by
      have := List.pairwise_cons.mp (by simpa only [List.map_cons] using hpw)
      exact this.2
    have hheadne : ∀ p ∈ ps, ¬ p.1 = idx := by
      have hrel := (List.pairwise_cons.mp (by simpa only [List.map_cons] using hpw)).1
      intro p hp hc
      exact hrel p.1 (List.mem_map.mpr ⟨p, hp, rfl⟩) hc.symm
    have hstep : setAbundance models idx ab
        = some (models.set idx
            { m with fitted := some { f with abundances := some [ab] } }) := by
      simp only [setAbundance, hm, hf]
    have hin2 : ∀ p ∈ ps, ∃ q g,
        (models.set idx { m with fitted := some { f with abundances := some [ab] } })[p.1]?
          = some q ∧ q.fitted = some g := by
      intro p hp
      obtain ⟨q, g, hq, hg⟩ := hin p (List.mem_cons_of_mem _ hp)
      refine ⟨q, g, ?_, hg⟩
      rw [List.getElem?_set_ne (fun hc => hheadne p hp hc.symm)]
      exact hq
    obtain ⟨out, hfold, hlen, hpt⟩ := foldlM_setAbundance ps
      (models.set idx { m with fitted := some { f with abundances := some [ab] } })
      hpwtail hin2
    refine ⟨out, ?_, by rw [hlen, List.length_set], fun i => ?_⟩
    · rw [List.foldlM_cons, hstep]
      simpa using hfold
    · rw [hpt i]
      by_cases hi : i = idx
      · subst hi
        have hlk : ps.lookup i = none := lookup_eq_none_of_forall_ne ps i hheadne
        have hlkc : ((i, ab) :: ps).lookup i = some ab := by
          simp [List.lookup]
        rw [hlk, hlkc]
        rw [List.getElem?_set_eq_of_lt _ hidxlt, hm]
        simp [hf]
      · have hlkc : ((idx, ab) :: ps).lookup i = ps.lookup i := by
          have hik : (i == idx) = false := by
            simp only [beq_eq_false_iff_ne, ne_eq]
            exact hi
          simp [List.lookup, hik]
        rw [hlkc, List.getElem?_set_ne (fun hc => hi hc.symm)]

/-- Claim C5: `measure_all` walks the profile-fitting models in index
order recording one equivalent width per model (NaN when not flagged
acceptable), calls the external `abundance_cog` exactly once with
precisely the transitions whose recorded width is finite (`cogArgSpec`),
and writes the returned abundances back to precisely the eligible models
in index-aligned order; every other model — synthesis, unacceptable, or
with non-finite width — is never passed to the call and its stored state,
including its abundance entry, is left untouched.  Hypotheses: acceptable
profile models carry a fit result, each profile model owns exactly one
in-range transition, at least one model is eligible, and the external call
returns one abundance per passed transition. -/
theorem measure_all_batches_finite_profile_models
    (cog : List Transition → List Rat) (line_list : List Transition)
    (models : List CAModel)
    (hfit : ∀ m ∈ models, m.isSynthesis = false → m.is_acceptable = true →
      m.fitted.isSome = true)
    (hone : ∀ m ∈ models, m.isSynthesis = false →
      ∃ k t, m.transition_indices = [k] ∧ line_list[k]? = some t)
    (hsome : ∃ m, m ∈ models ∧ eligible m = true)
    (hcoglen : (cog (cogArgSpec line_list models)).length
      = (eligibleIdx models).length) :
    ∃ out, measure_all cog line_list models = some out ∧
      out.length = models.length ∧
      (∀ i : Nat, i ∉ eligibleIdx models → out[i]? = models[i]?) ∧
      (∀ j i : Nat, (eligibleIdx models)[j]? = some i →
        ∃ m f a, models[i]? = some m ∧ m.fitted = some f ∧
          (cog (cogArgSpec line_list models))[j]? = some a ∧
          out[i]? = some { m with fitted := some { f with abundances := some [a] } }) := by
  obtain ⟨hscan, hmapM, hlenrows, hlenidx, hcog, hsel⟩ :=
    measure_pipeline line_list models hfit hone 0
  obtain ⟨m0, hm0, he0⟩ := hsome
  have hany : (profileEWs models).any Option.isSome = true :=
    profileEWs_any_isSome models m0 hm0 he0
  have hguard : ((profileEWs models).isEmpty
      || (profileEWs models).all (fun w => w.isNone)) = false := by
    obtain ⟨w, hwmem, hw⟩ := List.any_eq_true.mp hany
    have h1 : (profileEWs models).isEmpty = false := by
      cases hpe : profileEWs models with
      | nil => rw [hpe] at hwmem; simp at hwmem
      | cons a as => simp
    have h2 : (profileEWs models).all (fun w => w.isNone) = false := by
      cases hall : (profileEWs models).all (fun w => w.isNone) with
      | false => rfl
      | true =>
        have := List.all_eq_true.mp hall w hwmem
        cases w <;> simp_all
    rw [h1, h2]
    rfl
  have hred : measure_all cog line_list models
      = (((eligibleIdx models).zip (cog (cogArgSpec line_list models))).foldlM
          (fun ms p => setAbundance ms p.1 p.2) models) := by
    simp only [measure_all, hscan, hguard, Bool.false_eq_true, if_false, hmapM, hlenrows,
      eq_self_iff_true, if_true, zip_setEW_map_isSome, List.take_length, List.length_map,
      List.length_zip, Nat.min_self, hlenidx, hcog, hsel, eligibleIdx]
  have hkeys : (((eligibleIdx models).zip (cog (cogArgSpec line_list models))).map
      (fun p => p.1)) = eligibleIdx models := by
    have : (fun p : Nat × Rat => p.1) = Prod.fst := rfl
    rw [this, List.map_fst_zip]
    rw [hcoglen]
  have hpw : ((((eligibleIdx models).zip (cog (cogArgSpec line_list models))).map
      (fun p => p.1))).Pairwise (· ≠ ·) := by
    rw [hkeys]
    exact eligibleIdxFrom_pairwise models 0
  have hin : ∀ p ∈ (eligibleIdx models).zip (cog (cogArgSpec line_list models)),
      ∃ m f, models[p.1]? = some m ∧ m.fitted = some f := by
    intro p hp
    have hp1 : p.1 ∈ eligibleIdx models := (List.of_mem_zip hp).1
    obtain ⟨m, hm, hme⟩ := eligibleIdxFrom_mem_models models 0 p.1 hp1
    rw [Nat.sub_zero] at hm
    obtain ⟨_, _, f, hf⟩ := eligible_fitted m hme
    exact ⟨m, f, hm, hf⟩
  obtain ⟨out, hfold, hlen, hpt⟩ := foldlM_setAbundance
    ((eligibleIdx models).zip (cog (cogArgSpec line_list models))) models hpw hin
  refine ⟨out, by rw [hred]; exact hfold, hlen, ?_, ?_⟩
  · intro i hi
    rw [hpt i, lookup_eq_none_of_forall_ne _ i ?_]
    intro p hp hc
    exact hi (hc ▸ (List.of_mem_zip hp).1)
  · intro j i hj
    have hjlt : j < (eligibleIdx models).length := by
      by_contra hc
      rw [List.getElem?_eq_none (Nat.le_of_not_lt hc)] at hj
      exact Option.noConfusion hj
    have hjlt2 : j < (cog (cogArgSpec line_list models)).length := by
      rw [hcoglen]
      exact hjlt
    have ha : (cog (cogArgSpec line_list models))[j]?
        = some ((cog (cogArgSpec line_list models)).get ⟨j, hjlt2⟩) :=
      List.getElem?_eq_getElem hjlt2
    have hzip : ((eligibleIdx models).zip (cog (cogArgSpec line_list models)))[j]?
        = some (i, (cog (cogArgSpec line_list models)).get ⟨j, hjlt2⟩) := by
      rw [List.getElem?_zip_eq_some]
      exact ⟨hj, ha⟩
    have hlk := lookup_of_getElem? _ hpw j i _ hzip
    have himem : i ∈ eligibleIdx models := List.getElem?_mem hj
    obtain ⟨m, hm, hme⟩ := eligibleIdxFrom_mem_models models 0 i himem
    rw [Nat.sub_zero] at hm
    obtain ⟨_, _, f, hf⟩ := eligible_fitted m hme
    refine ⟨m, f, (cog (cogArgSpec line_list models)).get ⟨j, hjlt2⟩, hm, hf, ha, ?_⟩
    rw [hpt i, hlk, hm]
    simp [hf]

/-- Line-list row for the claim C5 witness. -/
def c5Line : Transition := { hash := "a", wavelength := 5000 }

/-- Fit result for the claim C5 witness. -/
def c5Fitted : CAFitted := { equivalent_width := some (1/10), abundances := none }

/-- Acceptable fitted profile model for the claim C5 witness. -/
def c5Profile : CAModel :=
  { isSynthesis := false, transition_indices := [0],
    is_acceptable := true, fitted := some c5Fitted }

/-- External curve-of-growth oracle for the claim C5 witness: one abundance
per transition. -/
def c5Cog : List Transition → List Rat := fun ts => ts.map (fun _ => 7)

/-- Claim C5 witness: the batching theorem applied to a one-model session. -/
theorem measure_all_batches_finite_profile_models_witness :
    ∃ out, measure_all c5Cog [c5Line] [c5Profile] = some out ∧
      out.length = [c5Profile].length ∧
      (∀ i : Nat, i ∉ eligibleIdx [c5Profile] → out[i]? = ([c5Profile])[i]?) ∧
      (∀ j i : Nat, (eligibleIdx [c5Profile])[j]? = some i →
        ∃ m f a, ([c5Profile])[i]? = some m ∧ m.fitted = some f ∧
          (c5Cog (cogArgSpec [c5Line] [c5Profile]))[j]? = some a ∧
          out[i]? = some { m with fitted := some { f with abundances := some [a] } }) :=
  measure_all_batches_finite_profile_models c5Cog [c5Line] [c5Profile]
    (by decide)
    (by
      intro m hm hsyn
      rw [List.mem_singleton] at hm
      subst hm
      exact ⟨0, c5Line, rfl, rfl⟩)
    ⟨c5Profile, List.mem_singleton.mpr rfl, by decide⟩
    (by decide)

/-! ### Claims C6, C10 — mask interval handling -/

/-- Whether the mask interval `p = (s, e)` contains the wavelength `x`:
the source condition `e >= event.xdata >= s`. -/
def containsWl (p : Rat × Rat) (x : Rat) : Bool :=
  decide (p.1 ≤ x) && decide (x ≤ p.2)

/-- The mask-removal search of `spectrum_axis_mouse_press`
(chemical_abundances.py:759-776): enumerate the reversed mask list, stop
at the first interval containing `x`, and convert the reversed position
back with `index = len(mask) - 1 - i`. -/
def findLatestContaining (mask : List (Rat × Rat)) (x : Rat) : Option Nat :=
  (mask.reverse.enum.find? (fun p => containsWl p.2 x)).map
    (fun p => mask.length - 1 - p.1)

/-- Mask removal on double click: delete the most-recently-added interval
containing `x` (`del mask[index]`) and report whether one was removed.
`SMHSpecDisplay._remove_mask` (base.py:320-328) is the same loop with the
same intent, but its body reads the name `spectral_model` while its
parameter is named `selected_model`, so in the source every call raises
`NameError` instead of returning — the claim C6 code bug. -/
def removeMaskContaining (mask : List (Rat × Rat)) (x : Rat) :
    Bool × List (Rat × Rat) :=
  match findLatestContaining mask x with
  | some i => (true, mask.eraseIdx i)
  | none => (false, mask)

/-- `i` is the index of the most-recently-added (= last) stored interval
containing `x`. -/
def latestContaining (mask : List (Rat × Rat)) (x : Rat) (i : Nat) : Prop :=
  i < mask.length ∧ (mask[i]?.any (fun p => containsWl p x)) = true ∧
    ∀ p ∈ mask.drop (i + 1), containsWl p x = false

/-- Claim C6 (the intended behaviour, crashed by the `NameError` in
`_remove_mask`): the removal searches most-recently-added first; when no
stored interval contains the wavelength it reports `false` and leaves the
mask unchanged, and when the interval at `i` is the latest one containing
the wavelength it deletes exactly that interval and reports `true`. -/
theorem remove_mask_containing_contract (mask : List (Rat × Rat)) (x : Rat) :
    ((∀ p ∈ mask, containsWl p x = false) →
      removeMaskContaining mask x = (false, mask)) ∧
    (∀ i : Nat, latestContaining mask x i →
      removeMaskContaining mask x = (true, mask.eraseIdx i)) := by
  constructor
  · intro hno
    have hfind : mask.reverse.enum.find? (fun p => containsWl p.2 x) = none := by
      rw [List.find?_eq_none]
      intro q hq
      have hq2 : q.2 ∈ mask := List.mem_reverse.mp (List.snd_mem_of_mem_enum hq)
      simp [hno q.2 hq2]
    simp [removeMaskContaining, findLatestContaining, hfind]
  · intro i hi
    obtain ⟨hlt, hcont, hafter⟩ := hi
    have hq : mask[i]? = some mask[i] := List.getElem?_eq_getElem hlt
    have hcontq : containsWl mask[i] x = true := by
      rw [hq] at hcont
      simpa using hcont
    have hsplit : mask.take i ++ mask[i] :: mask.drop (i + 1) = mask := by
      rw [List.get_drop_eq_drop mask i hlt, List.take_append_drop]
    have hrev : mask.reverse
        = (mask.drop (i + 1)).reverse ++ mask[i] :: (mask.take i).reverse := by
      conv_lhs => rw [← hsplit]
      rw [List.reverse_append, List.reverse_cons, List.append_assoc]
      simp
    have hlen : ((mask.drop (i + 1)).reverse).length = mask.length - (i + 1) := by
      simp
    have henum : mask.reverse.enum
        = ((mask.drop (i + 1)).reverse).enum
          ++ (mask.length - (i + 1), mask[i])
            :: ((mask.take i).reverse).enumFrom (mask.length - (i + 1) + 1) := by
      rw [hrev, List.enum_append, hlen]
      rfl
    have hfind : mask.reverse.enum.find? (fun p => containsWl p.2 x)
        = some (mask.length - (i + 1), mask[i]) := by
      rw [List.find?_eq_some]
      refine ⟨by simpa using hcontq,
        ((mask.drop (i + 1)).reverse).enum,
        ((mask.take i).reverse).enumFrom (mask.length - (i + 1) + 1), henum, ?_⟩
      intro a ha
      have ha2 : a.2 ∈ mask.drop (i + 1) :=
        List.mem_reverse.mp (List.snd_mem_of_mem_enum ha)
      simp [hafter a.2 ha2]
    have harith : mask.length - 1 - (mask.length - (i + 1)) = i := by omega
    simp [removeMaskContaining, findLatestContaining, hfind, harith]

/-- Mask list with a known latest containing interval, for the claim C6
witness. -/
def c6Mask : List (Rat × Rat) := [(0, 1), (2, 5), (3, 4), (6, 7)]

/-- Claim C6 witness: at wavelength 3 the latest containing interval is
the one at index 2, and the removal deletes exactly it; at wavelength 10
nothing contains the point and the mask is unchanged. -/
theorem remove_mask_containing_contract_witness :
    removeMaskContaining c6Mask 3 = (true, [(0, 1), (2, 5), (6, 7)]) ∧
    removeMaskContaining c6Mask 10 = (false, c6Mask) := by
  constructor
  · have h := (remove_mask_containing_contract c6Mask 3).2 2 (by
      refine ⟨by decide, by decide, by decide⟩)
    rw [h]
    rfl
  · exact (remove_mask_containing_contract c6Mask 10).1 (by decide)

/-- A mask interval with a ghost tag recording the antimask state under
which it was created.  The tag is proof instrumentation only — the source
stores plain `[start, end]` pairs. -/
structure TaggedInterval where
  lo : Rat
  hi : Rat
  tag : Bool
deriving DecidableEq, Repr

/-- The mask state of the selected spectral model: `metadata["mask"]` and
`metadata["antimask_flag"]`. -/
structure MaskState where
  mask : List TaggedInterval
  antimask_flag : Bool
deriving DecidableEq, Repr

/-- The normal-click branch of `SMHSpecDisplay.spectrum_left_mouse_press`
(base.py:226-231): when the shift-key state differs from the antimask
flag, the whole mask list is cleared and the flag inverted before the
drag starts. -/
def spectrum_left_mouse_press (shift : Bool) (st : MaskState) : MaskState :=
  if st.antimask_flag ≠ shift then
    { mask := [], antimask_flag := !st.antimask_flag }
  else st

/-- `SMHSpecDisplay.spectrum_left_mouse_release` (base.py:279-318), mask
part: append the dragged interval, tagged with the mode it was created
under. -/
def spectrum_left_mouse_release (lo hi : Rat) (st : MaskState) : MaskState :=
  { st with mask := st.mask ++ [{ lo := lo, hi := hi, tag := st.antimask_flag }] }

/-- Double-click removal of the mask interval at an index. -/
def removeMaskAt (i : Nat) (st : MaskState) : MaskState :=
  { st with mask := st.mask.eraseIdx i }

/-- The mask events of the spectrum display. -/
inductive MaskOp where
  | press (shift : Bool)
  | release (lo hi : Rat)
  | removeAt (i : Nat)
deriving DecidableEq, Repr

/-- Apply one mask event. -/
def applyMaskOp (st : MaskState) : MaskOp → MaskState
  | .press shift => spectrum_left_mouse_press shift st
  | .release lo hi => spectrum_left_mouse_release lo hi st
  | .removeAt i => removeMaskAt i st

/-- Run a sequence of mask events. -/
def runMaskOps (st : MaskState) : List MaskOp → MaskState
  | [] => st
  | op :: ops => runMaskOps (applyMaskOp st op) ops

/-- Every stored interval was created under the current antimask mode. -/
def MaskInv (st : MaskState) : Prop :=
  ∀ q ∈ st.mask, q.tag = st.antimask_flag

theorem maskInv_applyOp (st : MaskState) (op : MaskOp) (h : MaskInv st) :
    MaskInv (applyMaskOp st op) := by
  cases op with
  | press shift =>
    by_cases hs : st.antimask_flag ≠ shift
    · intro q hq
      simp [applyMaskOp, spectrum_left_mouse_press, hs] at hq
    · intro q hq
      simp only [applyMaskOp, spectrum_left_mouse_press, if_neg hs] at hq ⊢
      exact h q hq
  | release lo hi =>
    intro q hq
    simp only [applyMaskOp, spectrum_left_mouse_release, List.mem_append,
      List.mem_singleton] at hq
    rcases hq with hq | rfl
    · exact h q hq
    · rfl
  | removeAt i =>
    intro q hq
    simp only [applyMaskOp, removeMaskAt] at hq
    exact h q (List.eraseIdx_subset _ _ hq)

theorem maskInv_run :
    ∀ (ops : List MaskOp) (st : MaskState), MaskInv st → MaskInv (runMaskOps st ops)
  | [], _, h => h
  | op :: ops, st, h => maskInv_run ops (applyMaskOp st op) (maskInv_applyOp st op h)

/-- Claim C10: starting a mask drag whose shift state differs from the
current antimask flag empties the mask list and inverts the flag before
any interval is added; consequently, across any sequence of mask events
from a state whose intervals all match its mode, every stored interval
still matches the current mode — a model never simultaneously holds
intervals created in mask mode and intervals created in antimask mode. -/
theorem mask_modes_never_mix (st : MaskState) (ops : List MaskOp) (hinv : MaskInv st) :
    (∀ shift, st.antimask_flag ≠ shift →
      spectrum_left_mouse_press shift st
        = { mask := [], antimask_flag := !st.antimask_flag }) ∧
    MaskInv (runMaskOps st ops) ∧
    (∀ p ∈ (runMaskOps st ops).mask, ∀ q ∈ (runMaskOps st ops).mask,
      p.tag = q.tag) := by
  have hrun := maskInv_run ops st hinv
  refine ⟨fun shift hs => by simp [spectrum_left_mouse_press, hs], hrun, ?_⟩
  intro p hp q hq
  rw [hrun p hp, hrun q hq]

/-- Mask state for the claim C10 witness: one interval created in normal
mask mode. -/
def c10Start : MaskState :=
  { mask := [{ lo := 1, hi := 2, tag := false }], antimask_flag := false }

/-- Events for the claim C10 witness: a shift-click drag (antimask). -/
def c10Ops : List MaskOp := [.press true, .release 3 4]

/-- Claim C10 witness: a shift-click on a model holding a normal-mode mask
clears it and inverts the flag, and after the drag every stored interval
matches the current mode. -/
theorem mask_modes_never_mix_witness :
    MaskInv (runMaskOps c10Start c10Ops) ∧
    spectrum_left_mouse_press true c10Start
      = { mask := [], antimask_flag := !c10Start.antimask_flag } := by
  have h := mask_modes_never_mix c10Start c10Ops (by
    intro q hq
    simp only [c10Start, List.mem_singleton] at hq
    subst hq
    rfl)
  exact ⟨h.2.1, h.1 true (by decide)⟩

/-! ### Claim C8 — fit-parameter bound validation -/

/-- The result of `float(value)` when setting a bound: a finite value, an
infinity, or NaN. -/
inductive FVal where
  | finite (q : Rat)
  | posInf
  | negInf
  | nan
deriving DecidableEq, Repr

/-- Float comparison `value >= b` against a stored finite bound. -/
def FVal.ge (v : FVal) (b : Rat) : Bool :=
  match v with
  | .finite q => decide (b ≤ q)
  | .posInf => true
  | .negInf => false
  | .nan => false

/-- Float comparison `value <= b` against a stored finite bound. -/
def FVal.le (v : FVal) (b : Rat) : Bool :=
  match v with
  | .finite q => decide (q ≤ b)
  | .posInf => false
  | .negInf => true
  | .nan => false

/-- `np.isfinite(value)`: the finite payload when there is one. -/
def FVal.isfinite : FVal → Option Rat
  | .finite q => some q
  | _ => none

/-- The `metadata["bounds"]` dictionary of `BalmerLineOptionsTableModel`:
parameter name to (lower, upper), either possibly `None`. -/
structure BalmerOptions where
  bounds : List (String × (Option Rat × Option Rat))
deriving DecidableEq, Repr

/-- Dictionary read with the `[None, None]` default. -/
def getBounds (st : BalmerOptions) (param : String) : Option Rat × Option Rat :=
  (st.bounds.lookup param).getD (none, none)

/-- `metadata["bounds"].setdefault(parameter, [None, None])`. -/
def setdefaultBounds (st : BalmerOptions) (param : String) : BalmerOptions :=
  match st.bounds.lookup param with
  | some _ => st
  | none => { bounds := st.bounds ++ [(param, (none, none))] }

/-- Store a finite bound value, lower when `isLower`, upper otherwise
(`metadata["bounds"][parameter][column - 1] = value`). -/
def storeBound (st : BalmerOptions) (param : String) (isLower : Bool) (q : Rat) :
    BalmerOptions :=
  let old := getBounds st param
  let newPair := if isLower then (some q, old.2) else (old.1, some q)
  { bounds := (param, newPair) :: st.bounds.filter (fun kv => decide (kv.1 ≠ param)) }

/-- Outcome of `setData` on a bound cell: `ok` (stores and returns True),
`refused` (returns False, nothing stored), `errRaised` (raises ValueError
before anything is stored). -/
inductive SetDataOutcome where
  | ok (st : BalmerOptions)
  | refused (st : BalmerOptions)
  | errRaised (st : BalmerOptions)
deriving DecidableEq, Repr

/-- `BalmerLineOptionsTableModel.setData` (balmer.py:654-679), bound
columns (column 1 = lower, column 2 = upper): run
`bounds.setdefault(parameter, [None, None])`, parse `float(value)`
(failure returns False), raise ValueError when a new lower bound is `>=`
the stored upper bound or a new upper bound is `<=` the stored lower
bound, return False on a non-finite value, and only then store. -/
def setDataBound (st : BalmerOptions) (param : String) (isLower : Bool)
    (input : Option FVal) : SetDataOutcome :=
  let st1 := setdefaultBounds st param
  match input with
  | none => .refused st1
  | some v =>
    let bnds := getBounds st1 param
    if (isLower && bnds.2.any (fun b => v.ge b))
        || (!isLower && bnds.1.any (fun b => v.le b)) then
      .errRaised st1
    else
      match v.isfinite with
      | none => .refused st1
      | some q => .ok (storeBound st1 param isLower q)

theorem lookup_append_single {β : Type} (l : List (String × β)) (q param : String)
    (d : β) :
    (l ++ [(param, d)]).lookup q
      = match l.lookup q with
        | some v => some v
        | none => if q = param then some d else none := by
  induction l with
  | nil =>
    simp only [List.nil_append, List.lookup]
    by_cases hqp : q = param
    · simp [hqp]
    · simp [hqp, beq_eq_false_iff_ne.mpr hqp]
  | cons kv l ih =>
    obtain ⟨k, v⟩ := kv
    by_cases hqk : (q == k) = true
    · simp [List.lookup, hqk]
    · simp only [List.cons_append, List.lookup, Bool.eq_false_iff.mpr hqk]
      exact ih

/-- `setdefault` never changes any looked-up bound pair. -/
theorem getBounds_setdefault (st : BalmerOptions) (param q : String) :
    getBounds (setdefaultBounds st param) q = getBounds st q := by
  unfold setdefaultBounds
  cases hl : st.bounds.lookup param with
  | some v => rfl
  | none =>
    unfold getBounds
    simp only
    rw [lookup_append_single st.bounds q param (none, none)]
    cases hq : st.bounds.lookup q with
    | some v => rfl
    | none =>
      by_cases hqp : q = param
      · simp [hqp]
      · simp [hqp]

/-- Claim C8: setting a numeric bound that violates ordering against the
already-stored opposite bound — a new lower bound `>=` the stored upper, or
a new upper bound `<=` the stored lower — raises ValueError before anything
is stored, leaving every stored bound pair unchanged; a non-finite value is
likewise rejected (raising when it also violates ordering, refused
otherwise) without being stored. -/
theorem setData_bound_rejects (st : BalmerOptions) (param : String) (isLower : Bool)
    (input : Option FVal) :
    (∀ v, input = some v →
      ((isLower = true ∧ ∃ b, (getBounds st param).2 = some b ∧ v.ge b = true) ∨
       (isLower = false ∧ ∃ b, (getBounds st param).1 = some b ∧ v.le b = true)) →
      setDataBound st param isLower input = .errRaised (setdefaultBounds st param) ∧
      ∀ q, getBounds (setdefaultBounds st param) q = getBounds st q) ∧
    (∀ v, input = some v → v.isfinite = none →
      (setDataBound st param isLower input = .refused (setdefaultBounds st param) ∨
       setDataBound st param isLower input = .errRaised (setdefaultBounds st param)) ∧
      ∀ q, getBounds (setdefaultBounds st param) q = getBounds st q) := by
  constructor
  · rintro v rfl hviol
    refine ⟨?_, fun q => getBounds_setdefault st param q⟩
    have hcond : ((isLower && (getBounds (setdefaultBounds st param) param).2.any
          (fun b => v.ge b))
        || (!isLower && (getBounds (setdefaultBounds st param) param).1.any
          (fun b => v.le b))) = true := by
      rw [getBounds_setdefault st param param]
      rcases hviol with ⟨hl, b, hb, hgb⟩ | ⟨hl, b, hb, hgb⟩
      · subst hl
        rw [hb]
        simp [Option.any, hgb]
      · subst hl
        rw [hb]
        simp [Option.any, hgb]
    simp only [setDataBound, hcond, if_true]
  · rintro v rfl hnf
    refine ⟨?_, fun q => getBounds_setdefault st param q⟩
    by_cases hcond : ((isLower && (getBounds (setdefaultBounds st param) param).2.any
          (fun b => v.ge b))
        || (!isLower && (getBounds (setdefaultBounds st param) param).1.any
          (fun b => v.le b))) = true
    · right
      simp only [setDataBound, hcond, if_true]
    · left
      simp only [setDataBound, Bool.eq_false_iff.mpr hcond, Bool.false_eq_true, if_false,
        hnf]

/-- Bounds state for the claim C8 witness: parameter smoothing has a
stored upper bound 1. -/
def c8State : BalmerOptions := { bounds := [("smoothing", (none, some 1))] }

/-- Claim C8 witness: a new lower bound 2 >= the stored upper bound 1
raises before storing and leaves the stored bounds unchanged; a NaN value
is refused without being stored. -/
theorem setData_bound_rejects_witness :
    (setDataBound c8State "smoothing" true (some (.finite 2))
        = .errRaised (setdefaultBounds c8State "smoothing") ∧
      ∀ q, getBounds (setdefaultBounds c8State "smoothing") q = getBounds c8State q) ∧
    ((setDataBound c8State "smoothing" false (some .nan)
        = .refused (setdefaultBounds c8State "smoothing") ∨
      setDataBound c8State "smoothing" false (some .nan)
        = .errRaised (setdefaultBounds c8State "smoothing")) ∧
      ∀ q, getBounds (setdefaultBounds c8State "smoothing") q = getBounds c8State q) := by
  constructor
  · exact (setData_bound_rejects c8State "smoothing" true (some (.finite 2))).1
      (.finite 2) rfl (Or.inl ⟨rfl, 1, rfl, by decide⟩)
  · exact (setData_bound_rejects c8State "smoothing" false (some .nan)).2
      .nan rfl rfl

/-! ### Claim C7 — exported model states strip the transient fields -/

/-- Modelled from the spec (section 6, exported-model archive;
`SpectralModel.__getstate__` lives in `smh.spectral_models`, outside
src/): the serializable state of a spectral model — its transition hashes
and its metadata dictionary, with values of an arbitrary type `V`. -/
structure ModelState (V : Type) where
  transition_hashes : List String
  metadata : List (String × V)
deriving DecidableEq

/-- A spectral model as the export paths see it: its serializable state
plus the `_transition_indices` cache. -/
structure ExpModel (V : Type) where
  transition_hashes : List String
  transition_indices : List Nat
  metadata : List (String × V)
deriving DecidableEq

/-- Modelled from the spec: `__getstate__` — the serializable state;
`deepcopy` of it is a pure value copy in the embedding. -/
def getstate {V : Type} (m : ExpModel V) : ModelState V :=
  { transition_hashes := m.transition_hashes, metadata := m.metadata }

/-- Modelled from the spec: `index_transitions` re-resolves the owned
hashes against the current line-list hash column. -/
def index_transitions {V : Type} (hashes : List String) (m : ExpModel V) :
    ExpModel V :=
  { m with
    transition_indices := m.transition_hashes.filterMap (fun h => hashes.indexOf? h) }

/-- `state["metadata"].pop("fitted_result", None)` followed by
`state["metadata"].pop("is_acceptable", None)`, applied to the deep
copy. -/
def stripTransient {V : Type} (st : ModelState V) : ModelState V :=
  { st with
    metadata := st.metadata.filter
      (fun kv => decide (kv.1 ≠ "fitted_result") && decide (kv.1 ≠ "is_acceptable")) }

/-- One iteration of the export loop: re-index the model at the selected
row in place, strip a deep copy of its state, collect state and indices
(`none` embeds an out-of-range row). -/
def exportStep {V : Type} (hashes : List String)
    (acc : List (ExpModel V) × List (ModelState V) × List Nat) (r : Nat) :
    Option (List (ExpModel V) × List (ModelState V) × List Nat) :=
  match acc.1[r]? with
  | none => none
  | some m =>
    let mN := index_transitions hashes m
    some (acc.1.set r mN, acc.2.1 ++ [stripTransient (getstate mN)],
      acc.2.2 ++ mN.transition_indices)

/-- `SpectralModelsTableView.export_selected_spectral_models`
(linelist_manager.py:879-915), file dialog and pickling aside.  Returns
the updated session model list, the exported states and the collected
transition indices. -/
def export_selected_spectral_models {V : Type} (hashes : List String)
    (models : List (ExpModel V)) (sel : List Nat) :
    Option (List (ExpModel V) × List (ModelState V) × List Nat) :=
  sel.foldlM (exportStep hashes) (models, [], [])

/-- `TransitionsDialog.save_as_default` (linelist_manager.py:1060-1092),
spectral-model part: every session model is re-indexed in place and its
deep-copied state stripped of the two transient entries; the hash list is
re-wrapped as plain strings, which on the embedded strings is the
identity map. -/
def save_as_default {V : Type} (hashes : List String) (models : List (ExpModel V)) :
    List (ExpModel V) × List (ModelState V) :=
  (models.map (index_transitions hashes),
   models.map (fun m =>
     let st := stripTransient (getstate (index_transitions hashes m))
     { st with transition_hashes := st.transition_hashes.map (fun h => h) }))

theorem getstate_index_transitions {V : Type} (hashes : List String)
    (m : ExpModel V) : getstate (index_transitions hashes m) = getstate m := rfl

theorem lookup_filter_of_true {V : Type} (pr : String → Bool) (k : String)
    (hk : pr k = true) :
    ∀ l : List (String × V), (l.filter (fun kv => pr kv.1)).lookup k = l.lookup k
  | [] => rfl
  | (k2, v) :: l => by
    by_cases hk2 : pr k2 = true
    · simp only [List.filter_cons, hk2, if_true, List.lookup]
      cases hqk : k == k2 with
      | true => rfl
      | false => exact lookup_filter_of_true pr k hk l
    · have hne : (k == k2) = false := by
        rw [beq_eq_false_iff_ne]
        intro hc
        rw [hc] at hk
        rw [hk] at hk2
        exact hk2 rfl
      simp only [List.filter_cons, Bool.eq_false_iff.mpr hk2, Bool.false_eq_true,
        if_false, List.lookup, hne]
      exact lookup_filter_of_true pr k hk l

theorem lookup_filter_of_false {V : Type} (pr : String → Bool) (k : String)
    (hk : pr k = false) :
    ∀ l : List (String × V), (l.filter (fun kv => pr kv.1)).lookup k = none
  | [] => rfl
  | (k2, v) :: l => by
    by_cases hk2 : pr k2 = true
    · have hne : (k == k2) = false := by
        rw [beq_eq_false_iff_ne]
        intro hc
        rw [hc, hk2] at hk
        exact Bool.noConfusion hk
      simp only [List.filter_cons, hk2, if_true, List.lookup, hne]
      exact lookup_filter_of_false pr k hk l
    · simp only [List.filter_cons, Bool.eq_false_iff.mpr hk2, Bool.false_eq_true,
        if_false]
      exact lookup_filter_of_false pr k hk l

/-- Loop invariant of `export_selected_spectral_models`: the session
models keep their serializable state, and the exported states are the
stripped states of the originally selected models. -/
theorem export_loop {V : Type} (hashes : List String) (models0 : List (ExpModel V)) :
    ∀ (sel : List Nat) (acc : List (ExpModel V) × List (ModelState V) × List Nat),
      acc.1.length = models0.length →
      (∀ i : Nat, (acc.1[i]?).map getstate = (models0[i]?).map getstate) →
      ∀ out, sel.foldlM (exportStep hashes) acc = some out →
        out.1.length = models0.length ∧
        (∀ i : Nat, (out.1[i]?).map getstate = (models0[i]?).map getstate) ∧
        ∃ sts, out.2.1 = acc.2.1 ++ sts ∧ sts.length = sel.length ∧
          ∀ j r : Nat, sel[j]? = some r →
            ∃ m, models0[r]? = some m ∧ sts[j]? = some (stripTransient (getstate m))
  | [], acc, hlen, hst, out, hout => by
    simp only [List.foldlM_nil, Option.pure_def, Option.some.injEq] at hout
    subst hout
    refine ⟨hlen, hst, [], by simp, rfl, fun j r hj => by simp at hj⟩
  | r0 :: rs, acc, hlen, hst, out, hout => by
    rw [List.foldlM_cons] at hout
    cases hacc : acc.1[r0]? with
    | none =>
      rw [show exportStep hashes acc r0 = none by
        simp only [exportStep, hacc]] at hout
      simp at hout
    | some m =>
      rw [show exportStep hashes acc r0 = some (acc.1.set r0 (index_transitions hashes m),
            acc.2.1 ++ [stripTransient (getstate (index_transitions hashes m))],
            acc.2.2 ++ (index_transitions hashes m).transition_indices) by
        simp only [exportStep, hacc]] at hout
      have hout2 : rs.foldlM (exportStep hashes)
          (acc.1.set r0 (index_transitions hashes m),
            acc.2.1 ++ [stripTransient (getstate (index_transitions hashes m))],
            acc.2.2 ++ (index_transitions hashes m).transition_indices) = some out := by
        simpa using hout
      have hm0 : ∃ m0, models0[r0]? = some m0 ∧ getstate m0 = getstate m := by
        have hsti := hst r0
        rw [hacc] at hsti
        cases hm0e : models0[r0]? with
        | none => rw [hm0e] at hsti; simp at hsti
        | some m0 =>
          rw [hm0e] at hsti
          simp only [Option.map_some', Option.some.injEq] at hsti
          exact ⟨m0, rfl, hsti.symm⟩
      obtain ⟨m0, hm0eq, hm0st⟩ := hm0
      have hlen2 : (acc.1.set r0 (index_transitions hashes m)).length
          = models0.length := by
        rw [List.length_set]
        exact hlen
      have hst2 : ∀ i : Nat,
          ((acc.1.set r0 (index_transitions hashes m))[i]?).map getstate
            = (models0[i]?).map getstate := by
        intro i
        by_cases hir : r0 = i
        · subst hir
          have hrlt : r0 < acc.1.length := by
            by_contra hc
            rw [List.getElem?_eq_none (Nat.le_of_not_lt hc)] at hacc
            exact Option.noConfusion hacc
          rw [List.getElem?_set_eq_of_lt _ hrlt, hm0eq]
          simp only [Option.map_some', Option.some.injEq]
          rw [getstate_index_transitions, hm0st]
        · rw [List.getElem?_set_ne hir]
          exact hst i
      obtain ⟨hl, hs, sts, hsts, hstslen, hstspt⟩ :=
        export_loop hashes models0 rs _ hlen2 hst2 out hout2
      refine ⟨hl, hs, stripTransient (getstate m) :: sts, ?_,
        by simp [hstslen], ?_⟩
      · rw [hsts]
        rw [getstate_index_transitions]
        simp
      · intro j r hj
        cases j with
        | zero =>
          simp only [List.getElem?_cons_zero, Option.some.injEq] at hj ⊢
          subst hj
          exact ⟨m0, hm0eq, by rw [hm0st]⟩
        | succ j =>
          rw [List.getElem?_cons_succ] at hj ⊢
          exact hstspt j r hj

/-- Claim C7: every exported or saved-as-default model state contains
neither the `fitted_result` nor the `is_acceptable` metadata entry, while
its transition hashes and every other metadata entry are carried over from
the model unchanged; the operations themselves leave the serializable
state (transition hashes and full metadata, transient entries included) of
every in-session model unchanged — the stripping happens on a copy. -/
theorem export_strips_only_transient_fields {V : Type} (hashes : List String)
    (models : List (ExpModel V)) (sel : List Nat)
    (modelsN : List (ExpModel V)) (states : List (ModelState V)) (tis : List Nat)
    (hexp : export_selected_spectral_models hashes models sel
      = some (modelsN, states, tis)) :
    (modelsN.length = models.length ∧
      ∀ i : Nat, (modelsN[i]?).map getstate = (models[i]?).map getstate) ∧
    (states.length = sel.length ∧
      ∀ j r : Nat, sel[j]? = some r →
        ∃ m, models[r]? = some m ∧ states[j]? = some (stripTransient (getstate m))) ∧
    (∀ st : ModelState V, ∀ m : ExpModel V, st = stripTransient (getstate m) →
      st.transition_hashes = m.transition_hashes ∧
      st.metadata.lookup "fitted_result" = none ∧
      st.metadata.lookup "is_acceptable" = none ∧
      (∀ k : String, k ≠ "fitted_result" → k ≠ "is_acceptable" →
        st.metadata.lookup k = m.metadata.lookup k)) ∧
    ((save_as_default hashes models).1.length = models.length ∧
      (∀ i : Nat, ((save_as_default hashes models).1[i]?).map getstate
        = (models[i]?).map getstate) ∧
      (save_as_default hashes models).2
        = models.map (fun m => stripTransient (getstate m))) := by
  obtain ⟨hl, hs, sts, hsts, hstslen, hstspt⟩ :=
    export_loop hashes models sel (models, [], []) rfl (fun _ => rfl)
      (modelsN, states, tis) hexp
  simp only [List.nil_append] at hsts
  refine ⟨⟨hl, hs⟩, ⟨by rw [hsts]; exact hstslen, ?_⟩, ?_, ?_, ?_, ?_⟩
  · intro j r hj
    rw [hsts]
    exact hstspt j r hj
  · rintro st m rfl
    refine ⟨rfl, ?_, ?_, ?_⟩
    · exact lookup_filter_of_false
        (fun s => decide (s ≠ "fitted_result") && decide (s ≠ "is_acceptable"))
        "fitted_result" (by simp) m.metadata
    · exact lookup_filter_of_false
        (fun s => decide (s ≠ "fitted_result") && decide (s ≠ "is_acceptable"))
        "is_acceptable" (by simp) m.metadata
    · intro k hk1 hk2
      exact lookup_filter_of_true
        (fun s => decide (s ≠ "fitted_result") && decide (s ≠ "is_acceptable"))
        k (by simp [hk1, hk2]) m.metadata
  · simp [save_as_default]
  · intro i
    simp only [save_as_default, List.getElem?_map]
    cases models[i]? <;> simp [getstate_index_transitions]
  · simp only [save_as_default]
    refine List.map_congr_left ?_
    intro m hm
    simp [stripTransient, getstate_index_transitions]

/-- A model with transient and persistent metadata for the claim C7
witness. -/
def c7Model : ExpModel String :=
  { transition_hashes := ["a"], transition_indices := [0],
    metadata := [("window", "2"), ("fitted_result", "res"), ("is_acceptable", "yes")] }

/-- Claim C7 witness: exporting the single selected model of a one-model
session yields its stripped state and leaves the session state intact. -/
theorem export_strips_only_transient_fields_witness :
    (([index_transitions ["a"] c7Model] : List (ExpModel String)).length
        = [c7Model].length ∧
      ∀ i : Nat, (([index_transitions ["a"] c7Model])[i]?).map getstate
        = (([c7Model])[i]?).map getstate) ∧
    (([stripTransient (getstate c7Model)] : List (ModelState String)).length
        = ([0] : List Nat).length ∧
      ∀ j r : Nat, (([0] : List Nat))[j]? = some r →
        ∃ m, ([c7Model])[r]? = some m ∧
          ([stripTransient (getstate c7Model)])[j]? = some (stripTransient (getstate m))) ∧
    (∀ st : ModelState String, ∀ m : ExpModel String, st = stripTransient (getstate m) →
      st.transition_hashes = m.transition_hashes ∧
      st.metadata.lookup "fitted_result" = none ∧
      st.metadata.lookup "is_acceptable" = none ∧
      (∀ k : String, k ≠ "fitted_result" → k ≠ "is_acceptable" →
        st.metadata.lookup k = m.metadata.lookup k)) ∧
    ((save_as_default ["a"] [c7Model]).1.length = [c7Model].length ∧
      (∀ i : Nat, ((save_as_default ["a"] [c7Model]).1[i]?).map getstate
        = (([c7Model])[i]?).map getstate) ∧
      (save_as_default ["a"] [c7Model]).2
        = [c7Model].map (fun m => stripTransient (getstate m))) :=
  export_strips_only_transient_fields ["a"] [c7Model] [0]
    [index_transitions ["a"] c7Model] [stripTransient (getstate c7Model)] [0] rfl

/-! ### Claim C9 — reduced equivalent width -/

/-- The equivalent width stored by
`import_transitions_with_measured_equivalent_widths`
(linelist_manager.py:503-504): the file widths `w` are in milliAngstroms,
the stored width is `1e-3 * w` Angstroms. -/
noncomputable def measuredEquivalentWidth (w : ℝ) : ℝ := (1 / 1000) * w

/-- The reduced equivalent width stored by the same import
(linelist_manager.py:505-507): `-3 + np.log10(w / wavelength)`. -/
noncomputable def measuredREW (w lam : ℝ) : ℝ := -3 + Real.logb 10 (w / lam)

/-- The reduced-equivalent-width column computed for display by
`SpectralModelsTableModel.data` (chemical_abundances.py:1411-1416):
`np.log10(equivalent_width / wavelength)` from the stored width and the
representative wavelength. -/
noncomputable def displayedREW (ew lam : ℝ) : ℝ := Real.logb 10 (ew / lam)

/-- Claim C9: for a finite stored equivalent width the displayed reduced
equivalent width is log10 of the stored width over the wavelength, and the
pre-measured import stores exactly that quantity: the stored REW
`-3 + log10(w / wavelength)` equals `log10((1e-3 * w) / wavelength)` for
every positive file width `w` (milliAngstroms) and wavelength. -/
theorem reduced_equivalent_width_consistent (w lam : ℝ) (hw : 0 < w)
    (hlam : 0 < lam) :
    displayedREW (measuredEquivalentWidth w) lam
      = Real.logb 10 (measuredEquivalentWidth w / lam) ∧
    measuredREW w lam = displayedREW (measuredEquivalentWidth w) lam := by
  refine ⟨rfl, ?_⟩
  unfold measuredREW displayedREW measuredEquivalentWidth
  have hlog1000 : Real.logb 10 (1000 : ℝ) = 3 := by
    have h1000 : (1000 : ℝ) = 10 ^ (3 : ℕ) := by norm_num
    rw [h1000, Real.logb_pow, Real.logb_self_eq_one (by norm_num)]
    norm_num
  have hinv : Real.logb 10 ((1 / 1000 : ℝ)) = -3 := by
    rw [one_div, Real.logb_inv, hlog1000]
  have hwl : w / lam ≠ 0 := div_ne_zero (ne_of_gt hw) (ne_of_gt hlam)
  rw [mul_div_assoc, Real.logb_mul (by norm_num) hwl, hinv]

/-- Claim C9 witness: the identity at file width 1000 mA and wavelength
2 A. -/
theorem reduced_equivalent_width_consistent_witness :
    displayedREW (measuredEquivalentWidth 1000) 2
      = Real.logb 10 (measuredEquivalentWidth 1000 / 2) ∧
    measuredREW 1000 2 = displayedREW (measuredEquivalentWidth 1000) 2 :=
  reduced_equivalent_width_consistent 1000 2 (by norm_num) (by norm_num)

end Smh
